import Mathlib

/-!
Verification of the go-vcard contact encoder.

Go strings are modelled as `List Char` (the sequence of Unicode code points
of a valid-UTF-8 Go string); byte-sensitive operations (`len`, `range`
offsets) are recovered through `Char.utf8Size`.  Each definition below is a
direct translation of the correspondingly named Go function.
-/

namespace GoVcard

/-- A Go string, as its list of runes (code points). -/
abbrev GoStr := List Char

/-- Conversion from a Lean string literal to the model. -/
def gs (s : String) : GoStr := s.data

/-- `strings.ReplaceAll` specialised to a single-rune pattern `a`:
left-to-right, non-overlapping, the replacement is not rescanned. -/
def replace1 (a : Char) (rep : GoStr) : GoStr → GoStr
  | [] => []
  | c :: rest => if c = a then rep ++ replace1 a rep rest else c :: replace1 a rep rest

/-- `strings.ReplaceAll` specialised to a two-rune pattern `a b`:
left-to-right, non-overlapping, the replacement is not rescanned. -/
def replace2 (a b : Char) (rep : GoStr) : GoStr → GoStr
  | [] => []
  | [c] => [c]
  | c :: d :: rest =>
    if c = a ∧ d = b then rep ++ replace2 a b rep rest
    else c :: replace2 a b rep (d :: rest)

/-- `escapeValue` from the source: backslash, comma, semicolon, LF, CR
substitutions, in that order. -/
def escapeValue (value : GoStr) : GoStr :=
  replace1 '\r' ['\\', 'r']
    (replace1 '\n' ['\\', 'n']
      (replace1 ';' ['\\', ';']
        (replace1 ',' ['\\', ',']
          (replace1 '\\' ['\\', '\\'] value))))

/-- `unescapeValue` from the source: the five inverse substitutions in the
same textual order, plus the extra tab rule. -/
def unescapeValue (value : GoStr) : GoStr :=
  replace2 '\\' 't' ['\t']
    (replace2 '\\' 'r' ['\r']
      (replace2 '\\' 'n' ['\n']
        (replace2 '\\' ';' [';']
          (replace2 '\\' ',' [',']
            (replace2 '\\' '\\' ['\\'] value)))))

/-- `true` when the string contains a backslash immediately followed by one
of the letters `n`, `r`, `t` (the inputs on which the escape round-trip
breaks down). -/
def hasBadPair : GoStr → Bool
  | a :: b :: rest =>
    (a = '\\' && (b = 'n' || b = 'r' || b = 't')) || hasBadPair (b :: rest)
  | _ => false

/-- The per-rune effect of `escapeValue` (proved below, not assumed). -/
def escFun (c : Char) : GoStr :=
  if c = '\\' then ['\\', '\\']
  else if c = ',' then ['\\', ',']
  else if c = ';' then ['\\', ';']
  else if c = '\n' then ['\\', 'n']
  else if c = '\r' then ['\\', 'r']
  else [c]

theorem replace1_eq_flatMap (a : Char) (rep : GoStr) (s : GoStr) :
    replace1 a rep s = s.flatMap (fun c => if c = a then rep else [c]) := by
  induction s with
  | nil => rfl
  | cons c rest ih =>
    by_cases h : c = a <;> simp [replace1, h, ih]

theorem escapeValue_eq_flatMap (s : GoStr) : escapeValue s = s.flatMap escFun := by
  simp only [escapeValue, replace1_eq_flatMap, List.flatMap_assoc]
  congr 1
  funext c
  by_cases h1 : c = '\\'
  · simp [h1, escFun]
  by_cases h2 : c = ','
  · simp [h2, escFun]
  by_cases h3 : c = ';'
  · simp [h3, escFun]
  by_cases h4 : c = '\n'
  · simp [h4, escFun]
  by_cases h5 : c = '\r'
  · simp [h5, escFun]
  simp [escFun, h1, h2, h3, h4, h5]

theorem replace2_cons_ne (a b : Char) (rep : GoStr) (c : Char) (l : GoStr)
    (h : c ≠ a) : replace2 a b rep (c :: l) = c :: replace2 a b rep l := by
  cases l with
  | nil => rfl
  | cons d t => simp [replace2, h]

theorem replace2_match (a b : Char) (rep : GoStr) (l : GoStr) :
    replace2 a b rep (a :: b :: l) = rep ++ replace2 a b rep l := by
  simp [replace2]

theorem chain'_of_total {R : Char → Char → Prop} (h : ∀ a b, R a b) :
    ∀ s : GoStr, List.Chain' R s := by
  intro s
  induction s with
  | nil => exact List.chain'_nil
  | cons a t ih =>
    cases t with
    | nil => exact List.chain'_singleton a
    | cons b t' => exact List.Chain'.cons (h a b) ih

/-- One pass of a two-rune `ReplaceAll` with pattern `'\\' bC` over a string
assembled from per-rune blocks `f c`.  Each block is either the full pattern
(replaced by `rep`), a lone backslash, a two-rune escape `'\\' x` that does
not match, or an ordinary rune; a lone backslash must not be followed by a
block starting with `bC`. -/
theorem replace2_bs_cons_ne (bC : Char) (rep : GoStr) (z : Char) (t : GoStr)
    (hz : z ≠ bC) :
    replace2 '\\' bC rep ('\\' :: z :: t) = '\\' :: replace2 '\\' bC rep (z :: t) := by
  simp [replace2, hz]

/-- One pass of a two-rune `ReplaceAll` with pattern `'\\' bC` over a string
assembled from per-rune blocks `f c`.  Each block is either the full pattern
(replaced by `rep`), a lone backslash, a two-rune escape `'\\' x` that does
not match, or an ordinary rune; a lone backslash must not be followed by a
block starting with `bC`. -/
theorem replace2_flatMap_step (bC : Char) (rep : GoStr) (f g : Char → GoStr)
    (hclass : ∀ c, (f c = ['\\', bC] ∧ g c = rep) ∨
      (f c = g c ∧ (f c = ['\\'] ∨ (∃ x, f c = ['\\', x] ∧ x ≠ bC ∧ x ≠ '\\') ∨
        (∃ y, f c = [y] ∧ y ≠ '\\'))))
    (s : GoStr)
    (hs : List.Chain' (fun c d => f c = ['\\'] → (f d).head? ≠ some bC) s) :
    replace2 '\\' bC rep (s.flatMap f) = s.flatMap g := by
  induction s with
  | nil => rfl
  | cons c s' ih =>
    have htail : List.Chain' (fun c d => f c = ['\\'] → (f d).head? ≠ some bC) s' :=
      hs.tail
    simp only [List.flatMap_cons]
    rcases hclass c with ⟨hf, hg⟩ | ⟨hfg, hshape⟩
    · rw [hf, hg, List.cons_append, List.cons_append, List.nil_append,
        replace2_match, ih htail]
    · rcases hshape with hlone | ⟨x, hx, hxb, hxs⟩ | ⟨y, hy, hys⟩
      · rw [hlone, List.cons_append, List.nil_append]
        cases s' with
        | nil =>
          rw [← hfg, hlone]
          rfl
        | cons d s'' =>
          have hdne : (f d).head? ≠ some bC := by
            rcases List.chain'_cons.mp hs with ⟨h1, _⟩
            exact h1 hlone
          have hdnil : f d ≠ [] := by
            rcases hclass d with ⟨hfd, _⟩ | ⟨_, hfd | ⟨x', hfd, _, _⟩ | ⟨y', hfd, _⟩⟩ <;>
              simp [hfd]
          obtain ⟨z, zs, hz⟩ := List.exists_cons_of_ne_nil hdnil
          have hzne : z ≠ bC := by
            intro hzeq
            apply hdne
            rw [hz, hzeq]
            rfl
          have hflat : List.flatMap (d :: s'') f = z :: (zs ++ List.flatMap s'' f) := by
            rw [List.flatMap_cons, hz]
            rfl
          rw [hflat, replace2_bs_cons_ne _ _ _ _ hzne, ← hflat, ih htail, ← hfg, hlone]
          rfl
      · rw [hx, List.cons_append, List.cons_append, List.nil_append,
          replace2_bs_cons_ne _ _ _ _ hxb, replace2_cons_ne _ _ _ _ _ hxs,
          ih htail, ← hfg, hx]
        rfl
      · rw [hy, List.cons_append, List.nil_append,
          replace2_cons_ne _ _ _ _ _ hys, ih htail, ← hfg, hy]
        rfl

/-- Blocks after undoing the doubled backslashes. -/
def blk1 (c : Char) : GoStr :=
  if c = '\\' then ['\\']
  else if c = ',' then ['\\', ',']
  else if c = ';' then ['\\', ';']
  else if c = '\n' then ['\\', 'n']
  else if c = '\r' then ['\\', 'r']
  else [c]

/-- Blocks after additionally undoing the comma escape. -/
def blk2 (c : Char) : GoStr :=
  if c = ';' then ['\\', ';']
  else if c = '\n' then ['\\', 'n']
  else if c = '\r' then ['\\', 'r']
  else [c]

/-- Blocks after additionally undoing the semicolon escape. -/
def blk3 (c : Char) : GoStr :=
  if c = '\n' then ['\\', 'n']
  else if c = '\r' then ['\\', 'r']
  else [c]

/-- Blocks after additionally undoing the newline escape. -/
def blk4 (c : Char) : GoStr :=
  if c = '\r' then ['\\', 'r']
  else [c]

theorem flatMap_single (s : GoStr) : s.flatMap (fun c => [c]) = s := by
  induction s with
  | nil => rfl
  | cons c t ih => simp [List.flatMap_cons, ih]

theorem escFun_class (c : Char) :
    (escFun c = ['\\', '\\'] ∧ blk1 c = ['\\']) ∨
    (escFun c = blk1 c ∧ (escFun c = ['\\'] ∨
      (∃ x, escFun c = ['\\', x] ∧ x ≠ '\\' ∧ x ≠ '\\') ∨
      (∃ y, escFun c = [y] ∧ y ≠ '\\'))) := by
  by_cases h1 : c = '\\'
  · subst h1; exact Or.inl (by decide)
  by_cases h2 : c = ','
  · subst h2; exact Or.inr ⟨by decide, Or.inr (Or.inl ⟨',', by decide, by decide, by decide⟩)⟩
  by_cases h3 : c = ';'
  · subst h3; exact Or.inr ⟨by decide, Or.inr (Or.inl ⟨';', by decide, by decide, by decide⟩)⟩
  by_cases h4 : c = '\n'
  · subst h4; exact Or.inr ⟨by decide, Or.inr (Or.inl ⟨'n', by decide, by decide, by decide⟩)⟩
  by_cases h5 : c = '\r'
  · subst h5; exact Or.inr ⟨by decide, Or.inr (Or.inl ⟨'r', by decide, by decide, by decide⟩)⟩
  · refine Or.inr ⟨by simp [escFun, blk1, h1, h2, h3, h4, h5],
      Or.inr (Or.inr ⟨c, by simp [escFun, h1, h2, h3, h4, h5], h1⟩)⟩

theorem blk1_class (c : Char) :
    (blk1 c = ['\\', ','] ∧ blk2 c = [',']) ∨
    (blk1 c = blk2 c ∧ (blk1 c = ['\\'] ∨
      (∃ x, blk1 c = ['\\', x] ∧ x ≠ ',' ∧ x ≠ '\\') ∨
      (∃ y, blk1 c = [y] ∧ y ≠ '\\'))) := by
  by_cases h1 : c = '\\'
  · subst h1; exact Or.inr ⟨by decide, Or.inl (by decide)⟩
  by_cases h2 : c = ','
  · subst h2; exact Or.inl (by decide)
  by_cases h3 : c = ';'
  · subst h3; exact Or.inr ⟨by decide, Or.inr (Or.inl ⟨';', by decide, by decide, by decide⟩)⟩
  by_cases h4 : c = '\n'
  · subst h4; exact Or.inr ⟨by decide, Or.inr (Or.inl ⟨'n', by decide, by decide, by decide⟩)⟩
  by_cases h5 : c = '\r'
  · subst h5; exact Or.inr ⟨by decide, Or.inr (Or.inl ⟨'r', by decide, by decide, by decide⟩)⟩
  · refine Or.inr ⟨by simp [blk1, blk2, h1, h2, h3, h4, h5],
      Or.inr (Or.inr ⟨c, by simp [blk1, h1, h2, h3, h4, h5], h1⟩)⟩

theorem blk2_class (c : Char) :
    (blk2 c = ['\\', ';'] ∧ blk3 c = [';']) ∨
    (blk2 c = blk3 c ∧ (blk2 c = ['\\'] ∨
      (∃ x, blk2 c = ['\\', x] ∧ x ≠ ';' ∧ x ≠ '\\') ∨
      (∃ y, blk2 c = [y] ∧ y ≠ '\\'))) := by
  by_cases h3 : c = ';'
  · subst h3; exact Or.inl (by decide)
  by_cases h4 : c = '\n'
  · subst h4; exact Or.inr ⟨by decide, Or.inr (Or.inl ⟨'n', by decide, by decide, by decide⟩)⟩
  by_cases h5 : c = '\r'
  · subst h5; exact Or.inr ⟨by decide, Or.inr (Or.inl ⟨'r', by decide, by decide, by decide⟩)⟩
  by_cases h1 : c = '\\'
  · subst h1; exact Or.inr ⟨by decide, Or.inl (by decide)⟩
  · refine Or.inr ⟨by simp [blk2, blk3, h3, h4, h5],
      Or.inr (Or.inr ⟨c, by simp [blk2, h3, h4, h5], h1⟩)⟩

theorem blk3_class (c : Char) :
    (blk3 c = ['\\', 'n'] ∧ blk4 c = ['\n']) ∨
    (blk3 c = blk4 c ∧ (blk3 c = ['\\'] ∨
      (∃ x, blk3 c = ['\\', x] ∧ x ≠ 'n' ∧ x ≠ '\\') ∨
      (∃ y, blk3 c = [y] ∧ y ≠ '\\'))) := by
  by_cases h4 : c = '\n'
  · subst h4; exact Or.inl (by decide)
  by_cases h5 : c = '\r'
  · subst h5; exact Or.inr ⟨by decide, Or.inr (Or.inl ⟨'r', by decide, by decide, by decide⟩)⟩
  by_cases h1 : c = '\\'
  · subst h1; exact Or.inr ⟨by decide, Or.inl (by decide)⟩
  · refine Or.inr ⟨by simp [blk3, blk4, h4, h5],
      Or.inr (Or.inr ⟨c, by simp [blk3, h4, h5], h1⟩)⟩

theorem blk4_class (c : Char) :
    (blk4 c = ['\\', 'r'] ∧ (fun c => [c]) c = ['\r']) ∨
    (blk4 c = (fun c => [c]) c ∧ (blk4 c = ['\\'] ∨
      (∃ x, blk4 c = ['\\', x] ∧ x ≠ 'r' ∧ x ≠ '\\') ∨
      (∃ y, blk4 c = [y] ∧ y ≠ '\\'))) := by
  by_cases h5 : c = '\r'
  · subst h5; exact Or.inl (by decide)
  by_cases h1 : c = '\\'
  · subst h1; exact Or.inr ⟨by decide, Or.inl (by decide)⟩
  · refine Or.inr ⟨by simp [blk4, h5],
      Or.inr (Or.inr ⟨c, by simp [blk4, h5], h1⟩)⟩

theorem single_class (bC : Char) (c : Char) :
    ((fun c => [c]) c = ['\\', bC] ∧ (fun c => [c]) c = ['\t']) ∨
    ((fun c => [c]) c = (fun c => [c]) c ∧ ((fun c => [c]) c = ['\\'] ∨
      (∃ x, (fun c => [c]) c = ['\\', x] ∧ x ≠ bC ∧ x ≠ '\\') ∨
      (∃ y, (fun c => [c]) c = [y] ∧ y ≠ '\\'))) := by
  by_cases h1 : c = '\\'
  · subst h1; exact Or.inr ⟨rfl, Or.inl rfl⟩
  · exact Or.inr ⟨rfl, Or.inr (Or.inr ⟨c, rfl, h1⟩)⟩

theorem badPair_chain (b : Char) (hb : b = 'n' ∨ b = 'r' ∨ b = 't') :
    ∀ s : GoStr, hasBadPair s = false → List.Chain' (fun c d => c = '\\' → d ≠ b) s := by
  intro s
  induction s with
  | nil => intro _; exact List.chain'_nil
  | cons a t ih =>
    cases t with
    | nil => intro _; exact List.chain'_singleton a
    | cons bb rest =>
      intro h
      simp only [hasBadPair, Bool.or_eq_false_iff, Bool.and_eq_false_iff] at h
      refine List.chain'_cons.mpr ⟨?_, ih h.2⟩
      intro ha hbbeq
      rcases h.1 with hfa | hfb
      · rw [ha] at hfa
        simp at hfa
      · rcases hb with rfl | rfl | rfl <;> rw [hbbeq] at hfb <;> simp at hfb

theorem blk1_head_ne (d : Char) (b : Char) (hb : b = ',' ∨ b = ';') :
    (blk1 d).head? ≠ some b := by
  by_cases h1 : d = '\\'
  · subst h1; rcases hb with rfl | rfl <;> decide
  by_cases h2 : d = ','
  · subst h2; rcases hb with rfl | rfl <;> decide
  by_cases h3 : d = ';'
  · subst h3; rcases hb with rfl | rfl <;> decide
  by_cases h4 : d = '\n'
  · subst h4; rcases hb with rfl | rfl <;> decide
  by_cases h5 : d = '\r'
  · subst h5; rcases hb with rfl | rfl <;> decide
  · simp only [blk1, h1, h2, h3, h4, h5, if_false, List.head?_cons]
    intro hcon
    rcases hb with rfl | rfl
    · exact h2 (Option.some.inj hcon)
    · exact h3 (Option.some.inj hcon)

theorem blk2_head_ne (d : Char) : (blk2 d).head? ≠ some ';' := by
  by_cases h3 : d = ';'
  · subst h3; decide
  by_cases h4 : d = '\n'
  · subst h4; decide
  by_cases h5 : d = '\r'
  · subst h5; decide
  · simp only [blk2, h3, h4, h5, if_false, List.head?_cons]
    intro hcon
    exact h3 (Option.some.inj hcon)

theorem blk3_lone (c : Char) (h : blk3 c = ['\\']) : c = '\\' := by
  by_cases h4 : c = '\n'
  · subst h4; simp [blk3] at h
  by_cases h5 : c = '\r'
  · subst h5; simp [blk3] at h
  · simp only [blk3, h4, h5, if_false] at h
    exact List.singleton_injective h

theorem blk3_head (d : Char) (h : (blk3 d).head? = some 'n') : d = 'n' := by
  by_cases h4 : d = '\n'
  · subst h4; simp [blk3] at h
  by_cases h5 : d = '\r'
  · subst h5; simp [blk3] at h
  · simp only [blk3, h4, h5, if_false, List.head?_cons] at h
    exact Option.some.inj h

theorem blk4_lone (c : Char) (h : blk4 c = ['\\']) : c = '\\' := by
  by_cases h5 : c = '\r'
  · subst h5; simp [blk4] at h
  · simp only [blk4, h5, if_false] at h
    exact List.singleton_injective h

theorem blk4_head (d : Char) (h : (blk4 d).head? = some 'r') : d = 'r' := by
  by_cases h5 : d = '\r'
  · subst h5; simp [blk4] at h
  · simp only [blk4, h5, if_false, List.head?_cons] at h
    exact Option.some.inj h

/-- C1, corrected form, main lemma: the two substitution chains are mutually
inverse on strings that have no backslash immediately followed by a letter
`n`, `r` or `t`. -/
theorem unescape_escape (s : GoStr) (h : hasBadPair s = false) :
    unescapeValue (escapeValue s) = s := by
  rw [escapeValue_eq_flatMap, unescapeValue]
  rw [replace2_flatMap_step '\\' ['\\'] escFun blk1 escFun_class s
      (chain'_of_total (fun a b => by
        intro hcon
        exfalso
        by_cases h1 : a = '\\'
        · subst h1; simp [escFun] at hcon
        by_cases h2 : a = ','
        · subst h2; simp [escFun] at hcon
        by_cases h3 : a = ';'
        · subst h3; simp [escFun] at hcon
        by_cases h4 : a = '\n'
        · subst h4; simp [escFun] at hcon
        by_cases h5 : a = '\r'
        · subst h5; simp [escFun] at hcon
        · simp only [escFun, h1, h2, h3, h4, h5, if_false] at hcon
          exact h1 (List.singleton_injective hcon)) s)]
  rw [replace2_flatMap_step ',' [','] blk1 blk2 blk1_class s
      (chain'_of_total (fun a b => fun _ => blk1_head_ne b ',' (Or.inl rfl)) s)]
  rw [replace2_flatMap_step ';' [';'] blk2 blk3 blk2_class s
      (chain'_of_total (fun a b => fun _ => blk2_head_ne b) s)]
  rw [replace2_flatMap_step 'n' ['\n'] blk3 blk4 blk3_class s
      (((badPair_chain 'n' (Or.inl rfl) s h)).imp (fun a b hr hl hh =>
        absurd (blk3_head b hh) (hr (blk3_lone a hl))))]
  rw [replace2_flatMap_step 'r' ['\r'] blk4 (fun c => [c]) blk4_class s
      (((badPair_chain 'r' (Or.inr (Or.inl rfl)) s h)).imp (fun a b hr hl hh =>
        absurd (blk4_head b hh) (hr (blk4_lone a hl))))]
  rw [replace2_flatMap_step 't' ['\t'] (fun c => [c]) (fun c => [c]) (single_class 't') s
      (((badPair_chain 't' (Or.inr (Or.inr rfl)) s h)).imp (fun a b hr hl hh => by
        have ha : a = '\\' := List.singleton_injective hl
        have hbb : b = 't' := Option.some.inj hh
        exact absurd hbb (hr ha)))]
  exact flatMap_single s

/-- C1, counterexample: the escaping round-trip claimed by the spec fails on
the two-rune string backslash-`n`: escaping yields backslash backslash `n`,
and unescaping first collapses the double backslash and then turns the
resulting backslash-`n` into a line feed. -/
theorem C1_counterexample : unescapeValue (escapeValue (gs "\\n")) ≠ gs "\\n" := by
  decide

/-- C1, amended: for every string with no backslash immediately followed by
one of the letters `n`, `r`, `t`, unescaping the escaped form returns the
original string: `unescapeValue (escapeValue s) = s`. -/
theorem C1_escape_unescape_roundtrip (s : GoStr) (h : hasBadPair s = false) :
    unescapeValue (escapeValue s) = s :=
  unescape_escape s h

/-- C1, witness for the amended theorem at a concrete input. -/
theorem C1_roundtrip_witness :
    hasBadPair (gs "a,b;c\\d") = false ∧
      unescapeValue (escapeValue (gs "a,b;c\\d")) = gs "a,b;c\\d" :=
  ⟨by decide, C1_escape_unescape_roundtrip (gs "a,b;c\\d") (by decide)⟩

/-- Byte length of a Go string: `len` on a Go string counts UTF-8 bytes. -/
def goByteLen (s : GoStr) : Nat := (s.map Char.utf8Size).sum

/-- The loop of `foldLine`: Go's `range` over a string yields each rune
together with its byte offset `i`, and the source inserts a CRLF plus one
space before any rune whose byte offset is a positive multiple of 75. -/
def foldGo : Nat → GoStr → GoStr
  | _, [] => []
  | i, c :: rest =>
    (if 0 < i ∧ i % 75 = 0 then ['\r', '\n', ' '] else []) ++
      c :: foldGo (i + c.utf8Size) rest

/-- `foldLine` from the source: strings of at most 75 bytes are returned
unchanged, longer ones go through the folding loop. -/
def foldLine (line : GoStr) : GoStr :=
  if goByteLen line ≤ 75 then line else foldGo 0 line

/-- The CRLF-plus-space fold break. -/
def crlfSpace : GoStr := ['\r', '\n', ' ']

/-- Join segments with the fold break between them. -/
def joinCRLF : List GoStr → GoStr
  | [] => []
  | [a] => a
  | a :: b :: rest => a ++ crlfSpace ++ joinCRLF (b :: rest)

/-- Fuel-driven 75-rune chunking (the reference shape for folded output). -/
def chunksAux : Nat → GoStr → List GoStr
  | 0, l => [l]
  | fuel + 1, l => if l.length ≤ 75 then [l] else l.take 75 :: chunksAux fuel (l.drop 75)

/-- Split a string into chunks of 75 runes (the last one possibly shorter). -/
def chunks75 (l : GoStr) : List GoStr := chunksAux l.length l

theorem chunksAux_short (fuel : Nat) (l : GoStr) (h : l.length ≤ 75) :
    chunksAux fuel l = [l] := by
  cases fuel with
  | zero => rfl
  | succ f => simp [chunksAux, h]

theorem chunksAux_congr (fuel1 : Nat) :
    ∀ (fuel2 : Nat) (l : GoStr), l.length ≤ fuel1 + 75 → l.length ≤ fuel2 + 75 →
      chunksAux fuel1 l = chunksAux fuel2 l := by
  induction fuel1 with
  | zero =>
    intro fuel2 l h1 _
    rw [chunksAux_short 0 l h1, chunksAux_short fuel2 l h1]
  | succ f ih =>
    intro fuel2 l h1 h2
    by_cases hl : l.length ≤ 75
    · rw [chunksAux_short _ _ hl, chunksAux_short _ _ hl]
    · cases fuel2 with
      | zero => omega
      | succ f2 =>
        simp only [chunksAux, hl, if_false]
        have hdrop : (l.drop 75).length = l.length - 75 := by
          simp [List.length_drop]
        rw [ih f2 (l.drop 75) (by omega) (by omega)]

theorem chunks75_eq (l : GoStr) :
    chunks75 l = if l.length ≤ 75 then [l] else l.take 75 :: chunks75 (l.drop 75) := by
  by_cases hl : l.length ≤ 75
  · rw [if_pos hl]
    exact chunksAux_short _ _ hl
  · rw [if_neg hl]
    unfold chunks75
    cases hn : l.length with
    | zero => omega
    | succ n =>
      simp only [chunksAux, hl, if_false]
      have hdrop : (l.drop 75).length = l.length - 75 := by
        simp [List.length_drop]
      rw [chunksAux_congr n ((l.drop 75).length) (l.drop 75) (by omega) (by omega)]

theorem chunks75_ne_nil (l : GoStr) : chunks75 l ≠ [] := by
  rw [chunks75_eq]
  by_cases hl : l.length ≤ 75 <;> simp [hl]

theorem chunks75_len_le (n : Nat) :
    ∀ l : GoStr, l.length ≤ n → ∀ seg ∈ chunks75 l, seg.length ≤ 75 := by
  induction n with
  | zero =>
    intro l h seg hseg
    rw [chunks75_eq, if_pos (by omega)] at hseg
    rcases List.mem_singleton.mp hseg with rfl
    omega
  | succ n ih =>
    intro l h seg hseg
    rw [chunks75_eq] at hseg
    by_cases hl : l.length ≤ 75
    · rw [if_pos hl] at hseg
      rcases List.mem_singleton.mp hseg with rfl
      exact hl
    · rw [if_neg hl] at hseg
      rcases List.mem_cons.mp hseg with rfl | hmem
      · simp
      · exact ih (l.drop 75) (by simp [List.length_drop]; omega) seg hmem

theorem joinCRLF_cons (a : GoStr) (l : List GoStr) (h : l ≠ []) :
    joinCRLF (a :: l) = a ++ crlfSpace ++ joinCRLF l := by
  cases l with
  | nil => exact absurd rfl h
  | cons b t => rfl

theorem goByteLen_ascii (s : GoStr) (h : ∀ c ∈ s, Char.utf8Size c = 1) :
    goByteLen s = s.length := by
  induction s with
  | nil => rfl
  | cons c t ih =>
    have hc : Char.utf8Size c = 1 := h c (List.mem_cons_self c t)
    have ht := ih (fun d hd => h d (List.mem_cons_of_mem c hd))
    simp [goByteLen] at ht ⊢
    omega

theorem foldGoRun (s : GoStr) :
    ∀ (t : GoStr) (i : Nat), (∀ c ∈ s, Char.utf8Size c = 1) →
      1 ≤ i % 75 → s.length + i % 75 ≤ 75 →
      foldGo i (s ++ t) = s ++ foldGo (i + s.length) t := by
  induction s with
  | nil =>
    intro t i _ _ _
    simp [foldGo]
  | cons c s' ih =>
    intro t i hascii h1 h2
    have hc : Char.utf8Size c = 1 := hascii c (List.mem_cons_self c s')
    have hnb : ¬ (0 < i ∧ i % 75 = 0) := by omega
    have hstep : foldGo i ((c :: s') ++ t) = c :: foldGo (i + 1) (s' ++ t) := by
      simp [foldGo, hnb, hc]
    rw [hstep]
    cases s' with
    | nil =>
      simp [foldGo]
    | cons d s'' =>
      have hlen2 : (c :: d :: s'').length = s''.length + 2 := by simp
      have hlen1 : (d :: s'').length = s''.length + 1 := by simp
      rw [hlen2] at h2
      have h1' : 1 ≤ (i + 1) % 75 := by omega
      have hlen : (d :: s'').length + (i + 1) % 75 ≤ 75 := by
        rw [hlen1]
        omega
      rw [ih t (i + 1) (fun e he => hascii e (List.mem_cons_of_mem c he)) h1' hlen]
      have harith : i + 1 + (d :: s'').length = i + (c :: d :: s'').length := by
        rw [hlen1, hlen2]
        omega
      rw [harith]
      simp

theorem foldGo_chunks (n : Nat) :
    ∀ s : GoStr, s.length ≤ n → (∀ c ∈ s, Char.utf8Size c = 1) → s ≠ [] →
      ∀ m : Nat, 1 ≤ m →
        foldGo (75 * m) s = crlfSpace ++ joinCRLF (chunks75 s) := by
  induction n with
  | zero =>
    intro s hlen _ hne _ _
    exact absurd (List.length_eq_zero.mp (by omega)) hne
  | succ n ih =>
    intro s hlen hascii hne m hm
    obtain ⟨c, s', rfl⟩ := List.exists_cons_of_ne_nil hne
    have hc : Char.utf8Size c = 1 := hascii c (List.mem_cons_self c s')
    have hbreak : 0 < 75 * m ∧ (75 * m) % 75 = 0 := by omega
    have hstep : foldGo (75 * m) (c :: s') =
        crlfSpace ++ c :: foldGo (75 * m + 1) s' := by
      simp [foldGo, hbreak, hc, crlfSpace]
    rw [hstep]
    by_cases hshort : (c :: s').length ≤ 75
    · have hs' : s'.length ≤ 74 := by
        simp only [List.length_cons] at hshort
        omega
      have hrun := foldGoRun s' [] (75 * m + 1)
        (fun e he => hascii e (List.mem_cons_of_mem c he))
        (by omega) (by omega)
      rw [List.append_nil] at hrun
      rw [hrun]
      rw [chunks75_eq, if_pos hshort]
      simp [foldGo, joinCRLF]
    · have hs' : 75 ≤ s'.length := by
        simp only [List.length_cons] at hshort
        omega
      have htd := List.take_append_drop 74 s'
      have hAlen : (s'.take 74).length = 74 := by
        simp [List.length_take]
        omega
      have hrun := foldGoRun (s'.take 74) (s'.drop 74) (75 * m + 1)
        (fun e he => hascii e (List.mem_cons_of_mem c (List.take_subset 74 s' he)))
        (by omega) (by omega)
      rw [htd] at hrun
      rw [hrun, hAlen]
      have hmul : 75 * m + 1 + 74 = 75 * (m + 1) := by ring
      rw [hmul]
      have hBlen : (s'.drop 74).length ≤ n := by
        simp only [List.length_cons] at hlen
        simp [List.length_drop]
        omega
      have hBne : s'.drop 74 ≠ [] := by
        intro hcon
        have := congrArg List.length hcon
        simp [List.length_drop] at this
        omega
      rw [ih (s'.drop 74) hBlen
        (fun e he => hascii e (List.mem_cons_of_mem c (List.drop_subset 74 s' he)))
        hBne (m + 1) (by omega)]
      rw [chunks75_eq (c :: s'), if_neg hshort]
      have htake : (c :: s').take 75 = c :: s'.take 74 := rfl
      have hdrop : (c :: s').drop 75 = s'.drop 74 := rfl
      rw [htake, hdrop, joinCRLF_cons _ _ (chunks75_ne_nil _)]
      simp [crlfSpace]

theorem foldLine_chunks_ascii (line : GoStr)
    (hascii : ∀ c ∈ line, Char.utf8Size c = 1) :
    foldLine line = joinCRLF (chunks75 line) := by
  have hbl : goByteLen line = line.length := goByteLen_ascii line hascii
  by_cases hb : goByteLen line ≤ 75
  · rw [foldLine, if_pos hb, chunks75_eq, if_pos (by omega)]
    rfl
  · rw [foldLine, if_neg hb]
    have hlong : 75 < line.length := by omega
    obtain ⟨c, rest, rfl⟩ := List.exists_cons_of_ne_nil
      (by intro hcon; rw [hcon] at hlong; simp at hlong : line ≠ [])
    have hstep : foldGo 0 (c :: rest) = c :: foldGo 1 rest := by
      simp [foldGo, hascii c (List.mem_cons_self c rest)]
    rw [hstep]
    have hrest : 75 ≤ rest.length := by
      simp only [List.length_cons] at hlong
      omega
    have htd := List.take_append_drop 74 rest
    have hAlen : (rest.take 74).length = 74 := by
      simp [List.length_take]
      omega
    have hrun := foldGoRun (rest.take 74) (rest.drop 74) 1
      (fun e he => hascii e (List.mem_cons_of_mem c (List.take_subset 74 rest he)))
      (by omega) (by omega)
    rw [htd] at hrun
    rw [hrun, hAlen]
    have hBne : rest.drop 74 ≠ [] := by
      intro hcon
      have := congrArg List.length hcon
      simp [List.length_drop] at this
      omega
    rw [show (1 + 74 : Nat) = 75 * 1 by ring]
    rw [foldGo_chunks ((rest.drop 74).length) (rest.drop 74) le_rfl
      (fun e he => hascii e (List.mem_cons_of_mem c (List.drop_subset 74 rest he)))
      hBne 1 le_rfl]
    rw [chunks75_eq (c :: rest), if_neg (by omega)]
    have htake : (c :: rest).take 75 = c :: rest.take 74 := rfl
    have hdrop : (c :: rest).drop 75 = rest.drop 74 := rfl
    rw [htake, hdrop, joinCRLF_cons _ _ (chunks75_ne_nil _)]
    simp [crlfSpace]

/-- C3, counterexample: the line made of the rune `a` followed by 38 copies
of the two-byte rune `é` has 39 runes (well under 75), yet `foldLine`
changes it: the byte length is 77, so the loop runs and inserts a break at
byte offset 75.  Length and boundaries are measured in bytes, not in code
points as the claim states. -/
theorem C3_counterexample :
    ('a' :: List.replicate 38 'é').length ≤ 75 ∧
      foldLine ('a' :: List.replicate 38 'é') ≠ 'a' :: List.replicate 38 'é' := by
  constructor
  · decide
  · decide

/-- C3, amended: on single-byte (ASCII) lines the claimed behaviour holds:
lines of at most 75 runes are unchanged, and longer lines are split into
successive 75-rune chunks joined by CRLF plus a single space, every chunk
being at most 75 runes long (so each folded physical segment is at most 75
runes plus the leading continuation space).  On multi-byte text the source
folds by byte offset instead. -/
theorem C3_foldLine_ascii (line : GoStr)
    (h : ∀ c ∈ line, Char.utf8Size c = 1) :
    (line.length ≤ 75 → foldLine line = line) ∧
    foldLine line = joinCRLF (chunks75 line) ∧
    ∀ seg ∈ chunks75 line, seg.length ≤ 75 := by
  refine ⟨?_, foldLine_chunks_ascii line h, chunks75_len_le line.length line le_rfl⟩
  intro hlen
  rw [foldLine, if_pos]
  rw [goByteLen_ascii line h]
  exact hlen

/-- C3, witness for the amended theorem at a concrete 80-rune ASCII line. -/
theorem C3_fold_witness :
    (∀ c ∈ List.replicate 80 'a', Char.utf8Size c = 1) ∧
    ((List.replicate 80 'a').length ≤ 75 →
        foldLine (List.replicate 80 'a') = List.replicate 80 'a') ∧
    foldLine (List.replicate 80 'a') = joinCRLF (chunks75 (List.replicate 80 'a')) ∧
    (∀ seg ∈ chunks75 (List.replicate 80 'a'), seg.length ≤ 75) := by
  refine ⟨by decide, ?_⟩
  have h := C3_foldLine_ascii (List.replicate 80 'a') (by decide)
  exact ⟨h.1, h.2.1, h.2.2⟩

/-! ## Data model (types.go, part_008)

Go's `EmailType` / `PhoneType` / `AddressType` / `URLType` and `Version` are
string types; they are modelled as `GoStr` (the field is named `TypeP`
because `Type` is reserved in Lean).  The `map[string]string` of custom
properties is modelled as the list of its entries in iteration order, and
`*time.Time` fields as optional dates. -/

/-- `strings.Join`. -/
def joinWith (sep : GoStr) : List GoStr → GoStr
  | [] => []
  | [x] => x
  | x :: y :: rest => x ++ sep ++ joinWith sep (y :: rest)

/-- `strings.ToUpper`.  Go upper-cases every rune through the full Unicode
case mapping; `Char.toUpper` is that mapping's restriction to ASCII and
leaves every other rune unchanged, so this embedding agrees with Go exactly
on ASCII strings.  The one theorem whose conclusion exposes the upper-cased
key itself (C10) therefore assumes ASCII keys; every other use needs only
that an emitted custom line starts with `X-` and contains no line feed,
which no rune's Unicode upper-casing can affect (no rune outside ASCII
upper-cases to `X`, `-` or a line feed). -/
def goToUpper (s : GoStr) : GoStr := s.map Char.toUpper

structure Name where
  Last : GoStr
  First : GoStr
  Middle : GoStr
  Prefix : GoStr
  Suffix : GoStr
deriving DecidableEq

structure Email where
  Address : GoStr
  TypeP : GoStr
  Preferred : Bool
deriving DecidableEq

structure Phone where
  Number : GoStr
  TypeP : GoStr
  Preferred : Bool
deriving DecidableEq

structure Address where
  Street : GoStr
  Extended : GoStr
  City : GoStr
  State : GoStr
  PostalCode : GoStr
  Country : GoStr
  TypeP : GoStr
  Preferred : Bool
deriving DecidableEq

structure Organization where
  OrgName : GoStr
  Department : GoStr
  Title : GoStr
  Role : GoStr
deriving DecidableEq

structure URL where
  Address : GoStr
  TypeP : GoStr
  Preferred : Bool
deriving DecidableEq

/-- A calendar date; models the date part of a Go `time.Time`. -/
structure GoDate where
  year : Nat
  month : Nat
  day : Nat
deriving DecidableEq

/-- `Version30` ("3.0", the default). -/
def Version30 : GoStr := gs "3.0"

/-- `Version40` ("4.0"). -/
def Version40 : GoStr := gs "4.0"

structure VCard where
  version : GoStr
  name : Name
  emails : List Email
  phones : List Phone
  addresses : List Address
  organization : Organization
  urls : List URL
  photo : GoStr
  note : GoStr
  birthday : Option GoDate
  anniversary : Option GoDate
  customProps : List (GoStr × GoStr)
deriving DecidableEq

/-- `Name.FormattedName`: the non-empty parts, in the order prefix, first,
middle, last, suffix, joined by single spaces. -/
def Name.FormattedName (n : Name) : GoStr :=
  joinWith [' ']
    (([n.Prefix, n.First, n.Middle, n.Last, n.Suffix]).filter (fun p => !p.isEmpty))

/-- `Name.StructuredName`: the five escaped parts joined by semicolons in
the order last, first, middle, prefix, suffix. -/
def Name.StructuredName (n : Name) : GoStr :=
  joinWith [';'] [escapeValue n.Last, escapeValue n.First, escapeValue n.Middle,
    escapeValue n.Prefix, escapeValue n.Suffix]

/-- `Address.StructuredAddress`: 7 escaped fields joined by semicolons, the
post-office box always empty. -/
def Address.StructuredAddress (a : Address) : GoStr :=
  joinWith [';'] [[], escapeValue a.Extended, escapeValue a.Street,
    escapeValue a.City, escapeValue a.State, escapeValue a.PostalCode,
    escapeValue a.Country]

/-- `Address.FormattedAddress`: human-readable newline-joined rendering. -/
def Address.FormattedAddress (a : Address) : GoStr :=
  joinWith ['\n']
    ((if a.Street.isEmpty then [] else [a.Street]) ++
     (if a.Extended.isEmpty then [] else [a.Extended]) ++
     (let cityState := (if a.City.isEmpty then [] else [a.City]) ++
        (if a.State.isEmpty then [] else [a.State])
      if cityState.isEmpty then [] else [joinWith (gs ", ") cityState]) ++
     (if a.PostalCode.isEmpty then [] else [a.PostalCode]) ++
     (if a.Country.isEmpty then [] else [a.Country]))

/-- `formatTypeParameter`: `;TYPE=` followed by the non-empty tokens, comma
joined; empty when no tokens remain. -/
def formatTypeParameter (types : List GoStr) : GoStr :=
  if types = [] then []
  else
    let validTypes := types.filter (fun t => !t.isEmpty)
    if validTypes = [] then []
    else gs ";TYPE=" ++ joinWith [','] validTypes

/-- Decimal digits of a natural number (fuel-driven so that it computes in
the kernel). -/
def natDigitsAux : Nat → Nat → GoStr
  | 0, _ => []
  | fuel + 1, n =>
    if n < 10 then [Char.ofNat (48 + n)]
    else natDigitsAux fuel (n / 10) ++ [Char.ofNat (48 + n % 10)]

def natDigits (n : Nat) : GoStr := natDigitsAux (n + 1) n

/-- Zero-pad to `w` digits. -/
def padNat (w n : Nat) : GoStr :=
  List.replicate (w - (natDigits n).length) '0' ++ natDigits n

/-- The Go layout `2006-01-02`: zero-padded `YYYY-MM-DD`; models the
stdlib `time.Time.Format` used by the birthday/anniversary writers. -/
def formatDate (d : GoDate) : GoStr :=
  padNat 4 d.year ++ ['-'] ++ padNat 2 d.month ++ ['-'] ++ padNat 2 d.day

/-! ## Writers (part_004) and serialization (part_008) -/

/-- The fallback chain of `writeNameProperties` when `FormattedName` is
empty: `Last, First`, else `First`, else `Last`, else empty. -/
def fallbackName (n : Name) : GoStr :=
  if n.Last ≠ [] ∧ n.First ≠ [] then n.Last ++ gs ", " ++ n.First
  else if n.First ≠ [] then n.First
  else if n.Last ≠ [] then n.Last
  else []

/-- The `formattedName` local of `writeNameProperties` after the fallback. -/
def writeFormattedName (n : Name) : GoStr :=
  if n.FormattedName = [] then fallbackName n else n.FormattedName

/-- `writeNameProperties`: the `N` line always, then the `FN` line when the
formatted name (with the last-comma-first fallback) is non-empty. -/
def writeNameProperties (v : VCard) : GoStr :=
  (gs "N:" ++ v.name.StructuredName ++ ['\n']) ++
  (if writeFormattedName v.name ≠ [] then
    gs "FN:" ++ escapeValue (writeFormattedName v.name) ++ ['\n']
  else [])

/-- The `typeParam` local of `writeEmailProperties` (default `INTERNET`). -/
def emailBaseType (email : Email) : GoStr :=
  if email.TypeP ≠ [] then formatTypeParameter [email.TypeP]
  else formatTypeParameter [gs "INTERNET"]

def emailTypeParam (email : Email) : GoStr :=
  if email.Preferred then emailBaseType email ++ gs ";PREF=1" else emailBaseType email

/-- `writeEmailProperties`. -/
def writeEmailProperties (v : VCard) : GoStr :=
  v.emails.flatMap (fun email =>
    foldLine (gs "EMAIL" ++ emailTypeParam email ++ [':'] ++
      escapeValue email.Address) ++ ['\n'])

/-- The `typeParam` local of `writePhoneProperties` (default `VOICE`). -/
def phoneBaseType (phone : Phone) : GoStr :=
  if phone.TypeP ≠ [] then formatTypeParameter [phone.TypeP]
  else formatTypeParameter [gs "VOICE"]

def phoneTypeParam (phone : Phone) : GoStr :=
  if phone.Preferred then phoneBaseType phone ++ gs ";PREF=1" else phoneBaseType phone

/-- `writePhoneProperties`. -/
def writePhoneProperties (v : VCard) : GoStr :=
  v.phones.flatMap (fun phone =>
    foldLine (gs "TEL" ++ phoneTypeParam phone ++ [':'] ++
      escapeValue phone.Number) ++ ['\n'])

/-- The `typeParam` local of `writeAddressProperties` (no default type). -/
def addrBaseType (addr : Address) : GoStr :=
  if addr.TypeP ≠ [] then formatTypeParameter [addr.TypeP] else []

def addrTypeParam (addr : Address) : GoStr :=
  if addr.Preferred then addrBaseType addr ++ gs ";PREF=1" else addrBaseType addr

/-- `writeAddressProperties`: an `ADR` line per address, followed by a
`LABEL` line when any location field is non-empty. -/
def writeAddressProperties (v : VCard) : GoStr :=
  v.addresses.flatMap (fun addr =>
    (foldLine (gs "ADR" ++ addrTypeParam addr ++ [':'] ++
      addr.StructuredAddress) ++ ['\n']) ++
    (if addr.Street ≠ [] ∨ addr.City ≠ [] ∨ addr.State ≠ [] ∨
        addr.PostalCode ≠ [] ∨ addr.Country ≠ [] then
      foldLine (gs "LABEL" ++ addrTypeParam addr ++ [':'] ++
        escapeValue addr.FormattedAddress) ++ ['\n']
    else []))

/-- The `orgParts` local of `writeOrganizationProperties`. -/
def orgParts (o : Organization) : List GoStr :=
  [escapeValue o.OrgName] ++
    (if o.Department ≠ [] then [escapeValue o.Department] else [])

/-- `writeOrganizationProperties`. -/
def writeOrganizationProperties (v : VCard) : GoStr :=
  (if v.organization.OrgName ≠ [] then
    foldLine (gs "ORG:" ++ joinWith [';'] (orgParts v.organization)) ++ ['\n']
  else []) ++
  (if v.organization.Title ≠ [] then
    foldLine (gs "TITLE:" ++ escapeValue v.organization.Title) ++ ['\n']
  else []) ++
  (if v.organization.Role ≠ [] then
    foldLine (gs "ROLE:" ++ escapeValue v.organization.Role) ++ ['\n']
  else [])

/-- The `typeParam` local of `writeURLProperties` (no default type). -/
def urlBaseType (url : URL) : GoStr :=
  if url.TypeP ≠ [] then formatTypeParameter [url.TypeP] else []

def urlTypeParam (url : URL) : GoStr :=
  if url.Preferred then urlBaseType url ++ gs ";PREF=1" else urlBaseType url

/-- `writeURLProperties` (no default type). -/
def writeURLProperties (v : VCard) : GoStr :=
  v.urls.flatMap (fun url =>
    foldLine (gs "URL" ++ urlTypeParam url ++ [':'] ++
      escapeValue url.Address) ++ ['\n'])

/-- `writePhotoProperty`: prefix-sniffing of the stored string, emitted
verbatim (unescaped). -/
def writePhotoProperty (v : VCard) : GoStr :=
  if v.photo = [] then []
  else if (gs "http://").isPrefixOf v.photo || (gs "https://").isPrefixOf v.photo then
    foldLine (gs "PHOTO;VALUE=uri:" ++ v.photo) ++ ['\n']
  else if (gs "data:").isPrefixOf v.photo then
    foldLine (gs "PHOTO;ENCODING=b:" ++ v.photo) ++ ['\n']
  else
    foldLine (gs "PHOTO;ENCODING=b;TYPE=JPEG:" ++ v.photo) ++ ['\n']

/-- `writeBirthdayProperty` (not folded in the source). -/
def writeBirthdayProperty (v : VCard) : GoStr :=
  match v.birthday with
  | none => []
  | some d => gs "BDAY:" ++ formatDate d ++ ['\n']

/-- `writeAnniversaryProperty`: vCard 4.0 only. -/
def writeAnniversaryProperty (v : VCard) : GoStr :=
  match v.anniversary with
  | none => []
  | some d =>
    if v.version = Version40 then gs "ANNIVERSARY:" ++ formatDate d ++ ['\n']
    else []

/-- `writeCustomProperties`: entries whose upper-cased key starts with `X-`
and whose value is non-empty, key upper-cased and value escaped. -/
def writeCustomProperties (v : VCard) : GoStr :=
  v.customProps.flatMap (fun kv =>
    if (gs "X-").isPrefixOf (goToUpper kv.1) && !kv.2.isEmpty then
      foldLine (goToUpper kv.1 ++ [':'] ++ escapeValue kv.2) ++ ['\n']
    else [])

/-- `Validate` from the source: first/last name both empty, an empty email
address, or an empty phone number produce the corresponding error message;
`none` means success. -/
def VCard.Validate (v : VCard) : Option GoStr :=
  if v.name.First = [] ∧ v.name.Last = [] then
    some (gs "vcard must have at least first name or last name")
  else if v.emails.any (fun email => email.Address.isEmpty) then
    some (gs "email address cannot be empty")
  else if v.phones.any (fun phone => phone.Number.isEmpty) then
    some (gs "phone number cannot be empty")
  else none

/-- The body built by `String()` after a successful validation. -/
def renderVCard (v : VCard) : GoStr :=
  gs "BEGIN:VCARD" ++ ['\n'] ++
  (gs "VERSION:" ++ v.version ++ ['\n']) ++
  writeNameProperties v ++
  writeEmailProperties v ++
  writePhoneProperties v ++
  writeAddressProperties v ++
  writeOrganizationProperties v ++
  writeURLProperties v ++
  (if v.photo ≠ [] then writePhotoProperty v else []) ++
  (if v.note ≠ [] then gs "NOTE:" ++ escapeValue v.note ++ ['\n'] else []) ++
  (match v.birthday with
   | some _ => writeBirthdayProperty v
   | none => []) ++
  (match v.anniversary with
   | some _ => writeAnniversaryProperty v
   | none => []) ++
  writeCustomProperties v ++
  (gs "END:VCARD" ++ ['\n'])

/-- `String()` from the source: validate first, wrapping a validation error
with the `vcard validation failed: ` context, otherwise the rendered text. -/
def VCard.goString (v : VCard) : Except GoStr GoStr :=
  match v.Validate with
  | some err => Except.error (gs "vcard validation failed: " ++ err)
  | none => Except.ok (renderVCard v)

/-- `New()`: the empty contact, version 3.0. -/
def New : VCard :=
  { version := Version30,
    name := { Last := [], First := [], Middle := [], Prefix := [], Suffix := [] },
    emails := [], phones := [], addresses := [],
    organization := { OrgName := [], Department := [], Title := [], Role := [] },
    urls := [], photo := [], note := [],
    birthday := none, anniversary := none, customProps := [] }

/-- C4: `Validate()` fails exactly when both name parts are empty, or some
email address is the empty string, or some phone number is the empty
string. -/
theorem C4_validate_iff (v : VCard) :
    (v.Validate).isSome = true ↔
      ((v.name.First = [] ∧ v.name.Last = []) ∨
       (∃ e ∈ v.emails, e.Address = []) ∨
       (∃ p ∈ v.phones, p.Number = [])) := by
  unfold VCard.Validate
  split_ifs with h1 h2 h3
  · simp only [Option.isSome_some, true_iff]
    exact Or.inl h1
  · simp only [Option.isSome_some, true_iff]
    rw [List.any_eq_true] at h2
    obtain ⟨e, he, hee⟩ := h2
    exact Or.inr (Or.inl ⟨e, he, List.isEmpty_iff.mp hee⟩)
  · simp only [Option.isSome_some, true_iff]
    rw [List.any_eq_true] at h3
    obtain ⟨p, hp, hpp⟩ := h3
    exact Or.inr (Or.inr ⟨p, hp, List.isEmpty_iff.mp hpp⟩)
  · simp only [Option.isSome_none, Bool.false_eq_true, false_iff]
    intro hcon
    rcases hcon with hc | ⟨e, he, hee⟩ | ⟨p, hp, hpp⟩
    · exact h1 hc
    · exact h2 (List.any_eq_true.mpr ⟨e, he, List.isEmpty_iff.mpr hee⟩)
    · exact h3 (List.any_eq_true.mpr ⟨p, hp, List.isEmpty_iff.mpr hpp⟩)

/-- C2, counterexample: on the empty contact, `Validate` returns the
missing-name error, but `String()` returns that error wrapped in the
`vcard validation failed: ` context, not the same error unchanged. -/
theorem C2_counterexample :
    VCard.Validate New = some (gs "vcard must have at least first name or last name") ∧
    VCard.goString New = Except.error
      (gs "vcard validation failed: vcard must have at least first name or last name") ∧
    gs "vcard validation failed: vcard must have at least first name or last name" ≠
      gs "vcard must have at least first name or last name" := by
  refine ⟨by decide, by rfl, by decide⟩

/-- C2, amended: whenever `Validate` fails with message `e`, `String()`
returns no text and the error `vcard validation failed: ` ++ `e` (the
validation error wrapped with context, not the identical error); it never
returns partial text on validation failure. -/
theorem C2_serialize_wraps_error (v : VCard) (e : GoStr)
    (h : v.Validate = some e) :
    v.goString = Except.error (gs "vcard validation failed: " ++ e) := by
  unfold VCard.goString
  rw [h]

/-- C2, witness at the empty contact. -/
theorem C2_wrap_witness :
    VCard.Validate New = some (gs "vcard must have at least first name or last name") ∧
    VCard.goString New = Except.error (gs "vcard validation failed: " ++
      gs "vcard must have at least first name or last name") :=
  ⟨by decide, C2_serialize_wraps_error New _ (by decide)⟩

/-- The formatted-name computation exactly as the claim words it: the space
join of the non-empty parts in the order prefix, first, middle, last,
suffix; when that join is empty, `Last, First` when both are present, else
whichever single one of first/last is present (empty when neither is). -/
def specFormattedName (n : Name) : GoStr :=
  let j := joinWith [' ']
    (([n.Prefix, n.First, n.Middle, n.Last, n.Suffix]).filter (fun p => !p.isEmpty))
  if j ≠ [] then j
  else if n.Last ≠ [] ∧ n.First ≠ [] then n.Last ++ gs ", " ++ n.First
  else if n.First ≠ [] then n.First
  else n.Last

/-- C8: the name writer emits the `N` line and then the `FN` line exactly
when the formatted name described by the claim is non-empty, with that
value escaped. -/
theorem writeFormattedName_eq_spec (n : Name) :
    writeFormattedName n = specFormattedName n := by
  unfold writeFormattedName fallbackName specFormattedName
  simp only [Name.FormattedName]
  by_cases hj : joinWith [' ']
      (([n.Prefix, n.First, n.Middle, n.Last, n.Suffix]).filter
        (fun p => !p.isEmpty)) = []
  · simp only [hj, if_pos rfl, ne_eq, not_true_eq_false, if_false]
    by_cases hlf : n.Last ≠ [] ∧ n.First ≠ []
    · simp [hlf]
    · simp only [hlf, if_false]
      by_cases hf : n.First ≠ []
      · simp [hf]
      · simp only [hf, if_false]
        by_cases hl : n.Last ≠ []
        · simp [hl]
        · simp only [hl, if_false]
          simp only [not_not] at hl
          simp [hl]
  · simp [hj]

theorem C8_fn_emission (v : VCard) :
    writeNameProperties v =
      gs "N:" ++ v.name.StructuredName ++ ['\n'] ++
      (if specFormattedName v.name = [] then []
       else gs "FN:" ++ escapeValue (specFormattedName v.name) ++ ['\n']) := by
  unfold writeNameProperties
  rw [writeFormattedName_eq_spec]
  by_cases hs : specFormattedName v.name = []
  · simp [hs]
  · simp [hs]

/-! ## Physical lines of the output

`splitNL` splits a text on LF; its pieces are the physical lines (the last
piece is what follows the final newline — empty when the text ends with
one).  The lemmas below describe the pieces contributed by one emitted
property line, folded or not. -/

/-- Split on LF. -/
def splitNL : GoStr → List GoStr
  | [] => [[]]
  | c :: rest =>
    if c = '\n' then [] :: splitNL rest
    else
      match splitNL rest with
      | [] => [[c]]
      | p :: ps => (c :: p) :: ps

theorem splitNL_ne_nil (s : GoStr) : splitNL s ≠ [] := by
  cases s with
  | nil => simp [splitNL]
  | cons c rest =>
    by_cases h : c = '\n'
    · simp [splitNL, h]
    · simp only [splitNL, h, if_false]
      cases splitNL rest <;> simp

theorem splitNL_cons_ne (c : Char) (rest : GoStr) (h : c ≠ '\n') :
    ∀ p ps, splitNL rest = p :: ps → splitNL (c :: rest) = (c :: p) :: ps := by
  intro p ps hr
  simp only [splitNL, h, if_false, hr]

theorem splitNL_append_nl (a : GoStr) (b : GoStr) (ha : '\n' ∉ a) :
    splitNL (a ++ '\n' :: b) = a :: splitNL b := by
  induction a with
  | nil => simp [splitNL]
  | cons c a' ih =>
    have hc : c ≠ '\n' := fun hcon => ha (hcon ▸ List.mem_cons_self c a')
    have ha' : '\n' ∉ a' := fun hcon => ha (List.mem_cons_of_mem c hcon)
    rw [List.cons_append]
    have := ih ha'
    rw [splitNL_cons_ne c _ hc a' (splitNL b) this]

theorem splitNL_append_pre (a : GoStr) :
    ∀ b : GoStr, ∃ pre : List GoStr, pre ≠ [] ∧
      splitNL (a ++ '\n' :: b) = pre ++ splitNL b := by
  induction a with
  | nil =>
    intro b
    exact ⟨[[]], by simp, by simp [splitNL]⟩
  | cons c a' ih =>
    intro b
    obtain ⟨pre, hne, hpre⟩ := ih b
    by_cases hc : c = '\n'
    · subst hc
      refine ⟨[] :: pre, by simp, ?_⟩
      rw [List.cons_append]
      simp [splitNL, hpre]
    · obtain ⟨p, ps, rfl⟩ := List.exists_cons_of_ne_nil hne
      refine ⟨(c :: p) :: ps, by simp, ?_⟩
      rw [List.cons_append, splitNL_cons_ne c _ hc p (ps ++ splitNL b) (by simpa using hpre)]
      simp

/-- First-piece-prepending for segment lists. -/
def consHead (c : Char) : List GoStr → List GoStr
  | [] => [[c]]
  | s :: ss => (c :: s) :: ss

/-- The segments of the folding loop: maximal runs between inserted breaks. -/
def goSegs : Nat → GoStr → List GoStr
  | _, [] => [[]]
  | i, c :: rest =>
    if 0 < i ∧ i % 75 = 0 then [] :: consHead c (goSegs (i + c.utf8Size) rest)
    else consHead c (goSegs (i + c.utf8Size) rest)

theorem consHead_ne_nil (c : Char) (L : List GoStr) : consHead c L ≠ [] := by
  cases L <;> simp [consHead]

theorem goSegs_ne_nil (i : Nat) (s : GoStr) : goSegs i s ≠ [] := by
  cases s with
  | nil => simp [goSegs]
  | cons c rest =>
    simp only [goSegs]
    split
    · simp
    · exact consHead_ne_nil _ _

theorem joinCRLF_consHead (c : Char) (L : List GoStr) :
    joinCRLF (consHead c L) = c :: joinCRLF L := by
  cases L with
  | nil => rfl
  | cons s ss =>
    cases ss with
    | nil => rfl
    | cons b t => simp [consHead, joinCRLF]

theorem foldGo_eq_joinCRLF (s : GoStr) :
    ∀ i, foldGo i s = joinCRLF (goSegs i s) := by
  induction s with
  | nil => intro i; rfl
  | cons c rest ih =>
    intro i
    by_cases hb : 0 < i ∧ i % 75 = 0
    · rw [show foldGo i (c :: rest) = ['\r', '\n', ' '] ++ c :: foldGo (i + c.utf8Size) rest by
        simp [foldGo, hb]]
      rw [show goSegs i (c :: rest) = [] :: consHead c (goSegs (i + c.utf8Size) rest) by
        simp [goSegs, hb]]
      rw [joinCRLF_cons _ _ (consHead_ne_nil _ _), joinCRLF_consHead, ih]
      simp [crlfSpace]
    · rw [show foldGo i (c :: rest) = c :: foldGo (i + c.utf8Size) rest by
        simp [foldGo, hb]]
      rw [show goSegs i (c :: rest) = consHead c (goSegs (i + c.utf8Size) rest) by
        simp [goSegs, hb]]
      rw [joinCRLF_consHead, ih]

theorem goSegs_head (s : GoStr) :
    ∀ i, ∃ p ps, goSegs i s = p :: ps ∧ p <+: s ∧ (ps = [] → p = s) := by
  induction s with
  | nil => intro i; exact ⟨[], [], rfl, List.nil_prefix, fun _ => rfl⟩
  | cons c rest ih =>
    intro i
    obtain ⟨p, ps, hp, hpre, hps⟩ := ih (i + c.utf8Size)
    by_cases hb : 0 < i ∧ i % 75 = 0
    · refine ⟨[], consHead c (goSegs (i + c.utf8Size) rest), ?_, List.nil_prefix, ?_⟩
      · simp [goSegs, hb]
      · intro hcon
        exact absurd hcon (consHead_ne_nil _ _)
    · refine ⟨c :: p, ps, ?_, ?_, ?_⟩
      · simp [goSegs, hb, hp, consHead]
      · exact List.cons_prefix_cons.mpr ⟨rfl, hpre⟩
      · intro hnil
        rw [hps hnil]

theorem goSegs_chars (s : GoStr) :
    ∀ i seg, seg ∈ goSegs i s → ∀ c ∈ seg, c ∈ s := by
  induction s with
  | nil =>
    intro i seg hseg c hc
    simp [goSegs] at hseg
    subst hseg
    simp at hc
  | cons a rest ih =>
    intro i seg hseg c hc
    have hmain : seg ∈ consHead a (goSegs (i + a.utf8Size) rest) → c ∈ a :: rest := by
      intro hin
      obtain ⟨p, ps, hp, _, _⟩ := goSegs_head rest (i + a.utf8Size)
      rw [hp] at hin
      simp only [consHead, List.mem_cons] at hin
      rcases hin with rfl | hin
      · rcases List.mem_cons.mp hc with rfl | hcp
        · exact List.mem_cons_self _ _
        · exact List.mem_cons_of_mem a (ih _ p (by rw [hp]; exact List.mem_cons_self _ _) c hcp)
      · exact List.mem_cons_of_mem a (ih _ seg (by rw [hp]; exact List.mem_cons_of_mem _ hin) c hc)
    simp only [goSegs] at hseg
    split at hseg
    · rcases List.mem_cons.mp hseg with rfl | hin
      · simp at hc
      · exact hmain hin
    · exact hmain hseg

/-- Pieces of a continuation-segment list: each gets the leading space of
its fold break, and all but the last keep the CR of the next break. -/
def piecesSp : List GoStr → List GoStr
  | [] => []
  | [a] => [' ' :: a]
  | a :: b :: more => ((' ' :: a) ++ ['\r']) :: piecesSp (b :: more)

/-- Pieces of a full segment list. -/
def piecesOf : List GoStr → List GoStr
  | [] => []
  | [a] => [a]
  | a :: b :: more => (a ++ ['\r']) :: piecesSp (b :: more)

theorem piecesOf_ne_nil (L : List GoStr) (h : L ≠ []) : piecesOf L ≠ [] := by
  cases L with
  | nil => exact absurd rfl h
  | cons a t => cases t <;> simp [piecesOf]

theorem piecesSp_eq (M : List GoStr) (hM : M ≠ []) :
    ∀ p ps, piecesOf M = p :: ps → piecesSp M = (' ' :: p) :: ps := by
  intro p ps hp
  cases M with
  | nil => exact absurd rfl hM
  | cons a t =>
    cases t with
    | nil =>
      simp only [piecesOf] at hp
      obtain ⟨rfl, rfl⟩ := List.cons.inj hp
      rfl
    | cons b more =>
      simp only [piecesOf] at hp
      obtain ⟨rfl, rfl⟩ := List.cons.inj hp
      simp [piecesSp]

theorem segs_split (L : List GoStr) :
    ∀ rest : GoStr, L ≠ [] → (∀ seg ∈ L, '\n' ∉ seg) →
      splitNL (joinCRLF L ++ '\n' :: rest) = piecesOf L ++ splitNL rest := by
  induction L with
  | nil => intro rest h _; exact absurd rfl h
  | cons a t ih =>
    intro rest _ hnl
    cases t with
    | nil =>
      simp only [joinCRLF, piecesOf]
      rw [splitNL_append_nl a rest (hnl a (List.mem_cons_self a []))]
      rfl
    | cons b more =>
      have hna : '\n' ∉ a := hnl a (List.mem_cons_self _ _)
      have hJ : joinCRLF (a :: b :: more) ++ '\n' :: rest =
          (a ++ ['\r']) ++ '\n' :: (' ' :: (joinCRLF (b :: more) ++ '\n' :: rest)) := by
        simp [joinCRLF, crlfSpace]
      rw [hJ, splitNL_append_nl (a ++ ['\r']) _ (by
        intro hcon
        rcases List.mem_append.mp hcon with h1 | h2
        · exact hna h1
        · simp at h2)]
      have hrec := ih rest (by simp)
        (fun seg hseg => hnl seg (List.mem_cons_of_mem a hseg))
      obtain ⟨p, ps, hpps⟩ : ∃ p ps, piecesOf (b :: more) = p :: ps :=
        List.exists_cons_of_ne_nil (piecesOf_ne_nil _ (by simp))
      have hX : splitNL (joinCRLF (b :: more) ++ '\n' :: rest) =
          p :: (ps ++ splitNL rest) := by
        rw [hrec, hpps]
        rfl
      rw [splitNL_cons_ne ' ' _ (by decide) p (ps ++ splitNL rest) hX]
      simp only [piecesOf, piecesSp_eq (b :: more) (by simp) p ps hpps]
      rfl

theorem piecesSp_space (M : List GoStr) :
    ∀ q ∈ piecesSp M, ∃ t, q = ' ' :: t := by
  induction M with
  | nil => intro q hq; simp [piecesSp] at hq
  | cons a t ih =>
    intro q hq
    cases t with
    | nil =>
      simp only [piecesSp, List.mem_singleton] at hq
      exact ⟨a, hq⟩
    | cons b more =>
      simp only [piecesSp, List.mem_cons] at hq
      rcases hq with rfl | hq
      · exact ⟨a ++ ['\r'], rfl⟩
      · exact ih q hq

/-- The shape of one physical piece contributed by a (possibly folded)
property line `ln`: the whole line, a prefix of it closed by the CR of a
fold break, or a continuation piece starting with the fold space. -/
def PieceShape (ln q : GoStr) : Prop :=
  q = ln ∨ (∃ u, u <+: ln ∧ q = u ++ ['\r']) ∨ (∃ t, q = ' ' :: t)

/-- The pieces of one emitted unit `foldLine ln ++ "\n"`. -/
theorem foldLine_unit_pieces (ln : GoStr) (hnl : '\n' ∉ ln) (rest : GoStr) :
    ∃ ps : List GoStr, ps ≠ [] ∧
      splitNL ((foldLine ln ++ ['\n']) ++ rest) = ps ++ splitNL rest ∧
      ∀ q ∈ ps, PieceShape ln q := by
  have hassoc : (foldLine ln ++ ['\n']) ++ rest = foldLine ln ++ '\n' :: rest := by
    simp
  rw [hassoc]
  by_cases hb : goByteLen ln ≤ 75
  · rw [foldLine, if_pos hb, splitNL_append_nl ln rest hnl]
    exact ⟨[ln], by simp, rfl, by
      intro q hq
      rcases List.mem_singleton.mp hq with rfl
      exact Or.inl rfl⟩
  · rw [foldLine, if_neg hb, foldGo_eq_joinCRLF]
    have hsegnl : ∀ seg ∈ goSegs 0 ln, '\n' ∉ seg := by
      intro seg hseg hcon
      exact hnl (goSegs_chars ln 0 seg hseg '\n' hcon)
    rw [segs_split (goSegs 0 ln) rest (goSegs_ne_nil 0 ln) hsegnl]
    refine ⟨piecesOf (goSegs 0 ln), piecesOf_ne_nil _ (goSegs_ne_nil 0 ln), rfl, ?_⟩
    intro q hq
    obtain ⟨p, ps', hp, hpre, hsingle⟩ := goSegs_head ln 0
    rw [hp] at hq
    cases ps' with
    | nil =>
      simp only [piecesOf, List.mem_singleton] at hq
      subst hq
      exact Or.inl (hsingle rfl)
    | cons b more =>
      simp only [piecesOf, List.mem_cons] at hq
      rcases hq with rfl | hq
      · exact Or.inr (Or.inl ⟨p, hpre, rfl⟩)
      · exact Or.inr (Or.inr (piecesSp_space _ q hq))

/-- The pieces of one unfolded unit `ln ++ "\n"`. -/
theorem plain_unit_pieces (ln : GoStr) (hnl : '\n' ∉ ln) (rest : GoStr) :
    splitNL ((ln ++ ['\n']) ++ rest) = ln :: splitNL rest := by
  have hassoc : (ln ++ ['\n']) ++ rest = ln ++ '\n' :: rest := by
    simp
  rw [hassoc, splitNL_append_nl ln rest hnl]

/-- `X` is a run of complete output units whose physical pieces all satisfy
`Q`. -/
def ChunkPieces (Q : GoStr → Prop) (X : GoStr) : Prop :=
  ∀ rest : GoStr, ∃ ps : List GoStr,
    splitNL (X ++ rest) = ps ++ splitNL rest ∧ ∀ p ∈ ps, Q p

theorem chunk_nil (Q : GoStr → Prop) : ChunkPieces Q [] := by
  intro rest
  exact ⟨[], by simp, by simp⟩

theorem chunk_append {Q : GoStr → Prop} {X Y : GoStr}
    (hX : ChunkPieces Q X) (hY : ChunkPieces Q Y) : ChunkPieces Q (X ++ Y) := by
  intro rest
  obtain ⟨psY, hpsY, hQY⟩ := hY rest
  obtain ⟨psX, hpsX, hQX⟩ := hX (Y ++ rest)
  refine ⟨psX ++ psY, ?_, ?_⟩
  · rw [List.append_assoc, hpsX, hpsY, List.append_assoc]
  · intro p hp
    rcases List.mem_append.mp hp with h | h
    · exact hQX p h
    · exact hQY p h

theorem chunk_mono {Q Q' : GoStr → Prop} {X : GoStr}
    (hX : ChunkPieces Q X) (himp : ∀ p, Q p → Q' p) : ChunkPieces Q' X := by
  intro rest
  obtain ⟨ps, hps, hQ⟩ := hX rest
  exact ⟨ps, hps, fun p hp => himp p (hQ p hp)⟩

theorem chunk_flatMap {α : Type} {Q : GoStr → Prop} (W : α → GoStr) (l : List α)
    (h : ∀ x ∈ l, ChunkPieces Q (W x)) : ChunkPieces Q (l.flatMap W) := by
  induction l with
  | nil => exact chunk_nil Q
  | cons x t ih =>
    rw [List.flatMap_cons]
    exact chunk_append (h x (List.mem_cons_self x t))
      (ih (fun y hy => h y (List.mem_cons_of_mem x hy)))

theorem chunk_folded_unit {Q : GoStr → Prop} (ln : GoStr) (hnl : '\n' ∉ ln)
    (hln : Q ln) (hcr : ∀ u, u <+: ln → Q (u ++ ['\r']))
    (hsp : ∀ t, Q (' ' :: t)) : ChunkPieces Q (foldLine ln ++ ['\n']) := by
  intro rest
  obtain ⟨ps, _, hps, hshape⟩ := foldLine_unit_pieces ln hnl rest
  refine ⟨ps, hps, ?_⟩
  intro p hp
  rcases hshape p hp with rfl | ⟨u, hu, rfl⟩ | ⟨t, rfl⟩
  · exact hln
  · exact hcr u hu
  · exact hsp t

theorem chunk_plain_unit {Q : GoStr → Prop} (ln : GoStr) (hnl : '\n' ∉ ln)
    (hln : Q ln) : ChunkPieces Q (ln ++ ['\n']) := by
  intro rest
  rw [plain_unit_pieces ln hnl rest]
  refine ⟨[ln], rfl, ?_⟩
  intro p hp
  rcases List.mem_singleton.mp hp with rfl
  exact hln

/-- A physical piece of the output body: either it comes from a property
line starting with one of the prefixes in `Ps` (the whole line, or a
CR-closed prefix of it), or it is a fold continuation starting with a
space. -/
def PrefixedPiece (Ps : List GoStr) (q : GoStr) : Prop :=
  (∃ P ∈ Ps, ∃ ln, P <+: ln ∧ (q = ln ∨ ∃ u, u <+: ln ∧ q = u ++ ['\r'])) ∨
  (∃ t, q = ' ' :: t)

theorem chunk_prefixed_folded (Ps : List GoStr) (P : GoStr) (hP : P ∈ Ps)
    (ln : GoStr) (hpre : P <+: ln) (hnl : '\n' ∉ ln) :
    ChunkPieces (PrefixedPiece Ps) (foldLine ln ++ ['\n']) :=
  chunk_folded_unit ln hnl
    (Or.inl ⟨P, hP, ln, hpre, Or.inl rfl⟩)
    (fun u hu => Or.inl ⟨P, hP, ln, hpre, Or.inr ⟨u, hu, rfl⟩⟩)
    (fun t => Or.inr ⟨t, rfl⟩)

theorem chunk_prefixed_plain (Ps : List GoStr) (P : GoStr) (hP : P ∈ Ps)
    (ln : GoStr) (hpre : P <+: ln) (hnl : '\n' ∉ ln) :
    ChunkPieces (PrefixedPiece Ps) (ln ++ ['\n']) :=
  chunk_plain_unit ln hnl (Or.inl ⟨P, hP, ln, hpre, Or.inl rfl⟩)

theorem nlfree_append {a b : GoStr} (ha : '\n' ∉ a) (hb : '\n' ∉ b) :
    '\n' ∉ a ++ b := by
  intro hcon
  rcases List.mem_append.mp hcon with h | h
  · exact ha h
  · exact hb h

theorem escFun_nlfree (c : Char) : '\n' ∉ escFun c := by
  by_cases h1 : c = '\\'
  · subst h1; decide
  by_cases h2 : c = ','
  · subst h2; decide
  by_cases h3 : c = ';'
  · subst h3; decide
  by_cases h4 : c = '\n'
  · subst h4; decide
  by_cases h5 : c = '\r'
  · subst h5; decide
  · simp only [escFun, h1, h2, h3, h4, h5, if_false]
    intro hcon
    exact h4 ((List.mem_singleton.mp hcon).symm)

theorem escapeValue_nlfree (s : GoStr) : '\n' ∉ escapeValue s := by
  rw [escapeValue_eq_flatMap]
  intro hcon
  obtain ⟨c, _, hc⟩ := List.mem_flatMap.mp hcon
  exact escFun_nlfree c hc

theorem joinWith_mem (sep : GoStr) (l : List GoStr) (c : Char) :
    c ∈ joinWith sep l → c ∈ sep ∨ ∃ x ∈ l, c ∈ x := by
  induction l with
  | nil => intro h; simp [joinWith] at h
  | cons x t ih =>
    intro h
    cases t with
    | nil =>
      simp only [joinWith] at h
      exact Or.inr ⟨x, List.mem_singleton.mpr rfl, h⟩
    | cons y rest =>
      simp only [joinWith] at h
      rcases List.mem_append.mp h with h1 | h2
      · rcases List.mem_append.mp h1 with hx | hs
        · exact Or.inr ⟨x, List.mem_cons_self _ _, hx⟩
        · exact Or.inl hs
      · rcases ih h2 with hs | ⟨z, hz, hcz⟩
        · exact Or.inl hs
        · exact Or.inr ⟨z, List.mem_cons_of_mem x hz, hcz⟩

theorem joinWith_nlfree (sep : GoStr) (l : List GoStr)
    (hs : '\n' ∉ sep) (hl : ∀ x ∈ l, '\n' ∉ x) : '\n' ∉ joinWith sep l := by
  intro hcon
  rcases joinWith_mem sep l '\n' hcon with h | ⟨x, hx, hcx⟩
  · exact hs h
  · exact hl x hx hcx

theorem formatTypeParameter_nlfree (types : List GoStr)
    (h : ∀ t ∈ types, '\n' ∉ t) : '\n' ∉ formatTypeParameter types := by
  unfold formatTypeParameter
  split
  · simp
  · dsimp only
    split
    · simp
    · apply nlfree_append (by decide)
      apply joinWith_nlfree _ _ (by decide)
      intro x hx
      exact h x (List.mem_of_mem_filter hx)

theorem digit_ne_nl (k : Nat) (hk : k < 10) : Char.ofNat (48 + k) ≠ '\n' := by
  interval_cases k <;> decide

theorem natDigitsAux_nlfree (fuel : Nat) :
    ∀ n, '\n' ∉ natDigitsAux fuel n := by
  induction fuel with
  | zero => intro n; simp [natDigitsAux]
  | succ f ih =>
    intro n
    unfold natDigitsAux
    split
    · intro hcon
      exact digit_ne_nl n (by omega) (List.mem_singleton.mp hcon).symm
    · apply nlfree_append (ih (n / 10))
      intro hcon
      exact digit_ne_nl (n % 10) (Nat.mod_lt n (by omega))
        (List.mem_singleton.mp hcon).symm

theorem padNat_nlfree (w n : Nat) : '\n' ∉ padNat w n := by
  unfold padNat natDigits
  apply nlfree_append
  · intro hcon
    have := List.eq_of_mem_replicate hcon
    simp at this
  · exact natDigitsAux_nlfree _ _

theorem formatDate_nlfree (d : GoDate) : '\n' ∉ formatDate d := by
  unfold formatDate
  exact nlfree_append (nlfree_append (nlfree_append (nlfree_append
    (padNat_nlfree 4 d.year) (by decide)) (padNat_nlfree 2 d.month))
    (by decide)) (padNat_nlfree 2 d.day)

theorem toUpper_ne_nl (c : Char) (h : c ≠ '\n') : Char.toUpper c ≠ '\n' := by
  unfold Char.toUpper
  dsimp only
  split
  · rename_i hrange
    obtain ⟨h1, h2⟩ := hrange
    intro hcon
    generalize hg : c.toNat = n at h1 h2 hcon
    interval_cases n <;> exact absurd hcon (by decide)
  · exact h

theorem goToUpper_nlfree (k : GoStr) (h : '\n' ∉ k) : '\n' ∉ goToUpper k := by
  intro hcon
  obtain ⟨c, hc, hceq⟩ := List.mem_map.mp hcon
  exact toUpper_ne_nl c (fun hcn => h (hcn ▸ hc)) hceq

theorem prefix_app2 (a b c : GoStr) : a <+: (a ++ b) ++ c :=
  (List.prefix_append a b).trans (List.prefix_append _ c)

theorem prefix_app3 (a b c d : GoStr) : a <+: ((a ++ b) ++ c) ++ d :=
  (prefix_app2 a b c).trans (List.prefix_append _ d)

theorem fmtType1_nlfree (x : GoStr) (h : '\n' ∉ x) :
    '\n' ∉ formatTypeParameter [x] :=
  formatTypeParameter_nlfree [x] (by
    intro t ht
    rw [List.mem_singleton.mp ht]
    exact h)

theorem emailTypeParam_nlfree (e : Email) (h : '\n' ∉ e.TypeP) :
    '\n' ∉ emailTypeParam e := by
  have hbase : '\n' ∉ emailBaseType e := by
    unfold emailBaseType
    split
    · exact fmtType1_nlfree _ h
    · exact fmtType1_nlfree _ (by decide)
  unfold emailTypeParam
  split
  · exact nlfree_append hbase (by decide)
  · exact hbase

theorem phoneTypeParam_nlfree (p : Phone) (h : '\n' ∉ p.TypeP) :
    '\n' ∉ phoneTypeParam p := by
  have hbase : '\n' ∉ phoneBaseType p := by
    unfold phoneBaseType
    split
    · exact fmtType1_nlfree _ h
    · exact fmtType1_nlfree _ (by decide)
  unfold phoneTypeParam
  split
  · exact nlfree_append hbase (by decide)
  · exact hbase

theorem addrTypeParam_nlfree (a : Address) (h : '\n' ∉ a.TypeP) :
    '\n' ∉ addrTypeParam a := by
  have hbase : '\n' ∉ addrBaseType a := by
    unfold addrBaseType
    split
    · exact fmtType1_nlfree _ h
    · simp
  unfold addrTypeParam
  split
  · exact nlfree_append hbase (by decide)
  · exact hbase

theorem urlTypeParam_nlfree (u : URL) (h : '\n' ∉ u.TypeP) :
    '\n' ∉ urlTypeParam u := by
  have hbase : '\n' ∉ urlBaseType u := by
    unfold urlBaseType
    split
    · exact fmtType1_nlfree _ h
    · simp
  unfold urlTypeParam
  split
  · exact nlfree_append hbase (by decide)
  · exact hbase

theorem structuredName_nlfree (n : Name) : '\n' ∉ n.StructuredName := by
  unfold Name.StructuredName
  apply joinWith_nlfree _ _ (by decide)
  intro x hx
  simp only [List.mem_cons, List.mem_singleton] at hx
  rcases hx with rfl | rfl | rfl | rfl | (rfl | h)
  · exact escapeValue_nlfree _
  · exact escapeValue_nlfree _
  · exact escapeValue_nlfree _
  · exact escapeValue_nlfree _
  · exact escapeValue_nlfree _
  · simp at h

theorem structuredAddress_nlfree (a : Address) : '\n' ∉ a.StructuredAddress := by
  unfold Address.StructuredAddress
  apply joinWith_nlfree _ _ (by decide)
  intro x hx
  simp only [List.mem_cons, List.mem_singleton] at hx
  rcases hx with rfl | rfl | rfl | rfl | rfl | rfl | (rfl | h)
  · simp
  · exact escapeValue_nlfree _
  · exact escapeValue_nlfree _
  · exact escapeValue_nlfree _
  · exact escapeValue_nlfree _
  · exact escapeValue_nlfree _
  · exact escapeValue_nlfree _
  · simp at h

theorem orgParts_nlfree (o : Organization) :
    ∀ x ∈ orgParts o, '\n' ∉ x := by
  intro x hx
  unfold orgParts at hx
  rcases List.mem_append.mp hx with h | h
  · rw [List.mem_singleton.mp h]
    exact escapeValue_nlfree _
  · split at h
    · rw [List.mem_singleton.mp h]
      exact escapeValue_nlfree _
    · simp at h

/-! ## Per-writer piece descriptions -/

theorem chunk_name (Ps : List GoStr) (hN : gs "N:" ∈ Ps) (hFN : gs "FN:" ∈ Ps)
    (v : VCard) : ChunkPieces (PrefixedPiece Ps) (writeNameProperties v) := by
  unfold writeNameProperties
  apply chunk_append
  · exact chunk_prefixed_plain Ps (gs "N:") hN
      (gs "N:" ++ v.name.StructuredName) (List.prefix_append _ _)
      (nlfree_append (by decide) (structuredName_nlfree v.name))
  · split
    · exact chunk_prefixed_plain Ps (gs "FN:") hFN
        (gs "FN:" ++ escapeValue (writeFormattedName v.name))
        (List.prefix_append _ _)
        (nlfree_append (by decide) (escapeValue_nlfree _))
    · exact chunk_nil _

theorem chunk_emails (Ps : List GoStr) (hP : gs "EMAIL" ∈ Ps) (v : VCard)
    (hty : ∀ e ∈ v.emails, '\n' ∉ e.TypeP) :
    ChunkPieces (PrefixedPiece Ps) (writeEmailProperties v) := by
  unfold writeEmailProperties
  apply chunk_flatMap
  intro e he
  exact chunk_prefixed_folded Ps (gs "EMAIL") hP _ (prefix_app3 _ _ _ _)
    (nlfree_append (nlfree_append (nlfree_append (by decide)
      (emailTypeParam_nlfree e (hty e he))) (by decide)) (escapeValue_nlfree _))

theorem chunk_phones (Ps : List GoStr) (hP : gs "TEL" ∈ Ps) (v : VCard)
    (hty : ∀ p ∈ v.phones, '\n' ∉ p.TypeP) :
    ChunkPieces (PrefixedPiece Ps) (writePhoneProperties v) := by
  unfold writePhoneProperties
  apply chunk_flatMap
  intro p hp
  exact chunk_prefixed_folded Ps (gs "TEL") hP _ (prefix_app3 _ _ _ _)
    (nlfree_append (nlfree_append (nlfree_append (by decide)
      (phoneTypeParam_nlfree p (hty p hp))) (by decide)) (escapeValue_nlfree _))

theorem chunk_addresses (Ps : List GoStr) (hA : gs "ADR" ∈ Ps)
    (hL : gs "LABEL" ∈ Ps) (v : VCard)
    (hty : ∀ a ∈ v.addresses, '\n' ∉ a.TypeP) :
    ChunkPieces (PrefixedPiece Ps) (writeAddressProperties v) := by
  unfold writeAddressProperties
  apply chunk_flatMap
  intro a ha
  apply chunk_append
  · exact chunk_prefixed_folded Ps (gs "ADR") hA _ (prefix_app3 _ _ _ _)
      (nlfree_append (nlfree_append (nlfree_append (by decide)
        (addrTypeParam_nlfree a (hty a ha))) (by decide))
        (structuredAddress_nlfree a))
  · split
    · exact chunk_prefixed_folded Ps (gs "LABEL") hL _ (prefix_app3 _ _ _ _)
        (nlfree_append (nlfree_append (nlfree_append (by decide)
          (addrTypeParam_nlfree a (hty a ha))) (by decide)) (escapeValue_nlfree _))
    · exact chunk_nil _

theorem chunk_org (Ps : List GoStr) (hO : gs "ORG:" ∈ Ps)
    (hT : gs "TITLE:" ∈ Ps) (hR : gs "ROLE:" ∈ Ps) (v : VCard) :
    ChunkPieces (PrefixedPiece Ps) (writeOrganizationProperties v) := by
  unfold writeOrganizationProperties
  apply chunk_append
  apply chunk_append
  · split
    · exact chunk_prefixed_folded Ps (gs "ORG:") hO _ (List.prefix_append _ _)
        (nlfree_append (by decide)
          (joinWith_nlfree _ _ (by decide) (orgParts_nlfree v.organization)))
    · exact chunk_nil _
  · split
    · exact chunk_prefixed_folded Ps (gs "TITLE:") hT _ (List.prefix_append _ _)
        (nlfree_append (by decide) (escapeValue_nlfree _))
    · exact chunk_nil _
  · split
    · exact chunk_prefixed_folded Ps (gs "ROLE:") hR _ (List.prefix_append _ _)
        (nlfree_append (by decide) (escapeValue_nlfree _))
    · exact chunk_nil _

theorem chunk_urls (Ps : List GoStr) (hP : gs "URL" ∈ Ps) (v : VCard)
    (hty : ∀ u ∈ v.urls, '\n' ∉ u.TypeP) :
    ChunkPieces (PrefixedPiece Ps) (writeURLProperties v) := by
  unfold writeURLProperties
  apply chunk_flatMap
  intro u hu
  exact chunk_prefixed_folded Ps (gs "URL") hP _ (prefix_app3 _ _ _ _)
    (nlfree_append (nlfree_append (nlfree_append (by decide)
      (urlTypeParam_nlfree u (hty u hu))) (by decide)) (escapeValue_nlfree _))

theorem chunk_photo (Ps : List GoStr) (hP : gs "PHOTO;" ∈ Ps) (v : VCard)
    (hphoto : '\n' ∉ v.photo) :
    ChunkPieces (PrefixedPiece Ps) (writePhotoProperty v) := by
  unfold writePhotoProperty
  split
  · exact chunk_nil _
  split
  · exact chunk_prefixed_folded Ps (gs "PHOTO;") hP _
      ((by decide : gs "PHOTO;" <+: gs "PHOTO;VALUE=uri:").trans
        (List.prefix_append _ _))
      (nlfree_append (by decide) hphoto)
  split
  · exact chunk_prefixed_folded Ps (gs "PHOTO;") hP _
      ((by decide : gs "PHOTO;" <+: gs "PHOTO;ENCODING=b:").trans
        (List.prefix_append _ _))
      (nlfree_append (by decide) hphoto)
  · exact chunk_prefixed_folded Ps (gs "PHOTO;") hP _
      ((by decide : gs "PHOTO;" <+: gs "PHOTO;ENCODING=b;TYPE=JPEG:").trans
        (List.prefix_append _ _))
      (nlfree_append (by decide) hphoto)

theorem chunk_bday (Ps : List GoStr) (hP : gs "BDAY:" ∈ Ps) (v : VCard) :
    ChunkPieces (PrefixedPiece Ps) (writeBirthdayProperty v) := by
  unfold writeBirthdayProperty
  cases v.birthday with
  | none => exact chunk_nil _
  | some d =>
    exact chunk_prefixed_plain Ps (gs "BDAY:") hP _ (List.prefix_append _ _)
      (nlfree_append (by decide) (formatDate_nlfree d))

theorem chunk_anniv (Ps : List GoStr) (hP : gs "ANNIVERSARY:" ∈ Ps) (v : VCard) :
    ChunkPieces (PrefixedPiece Ps) (writeAnniversaryProperty v) := by
  unfold writeAnniversaryProperty
  cases v.anniversary with
  | none => exact chunk_nil _
  | some d =>
    show ChunkPieces (PrefixedPiece Ps)
      (if v.version = Version40 then gs "ANNIVERSARY:" ++ formatDate d ++ ['\n']
       else [])
    by_cases hv : v.version = Version40
    · rw [if_pos hv]
      exact chunk_prefixed_plain Ps (gs "ANNIVERSARY:") hP _ (List.prefix_append _ _)
        (nlfree_append (by decide) (formatDate_nlfree d))
    · rw [if_neg hv]
      exact chunk_nil _

theorem chunk_custom (Ps : List GoStr) (hP : gs "X-" ∈ Ps) (v : VCard)
    (hkeys : ∀ kv ∈ v.customProps, '\n' ∉ kv.1) :
    ChunkPieces (PrefixedPiece Ps) (writeCustomProperties v) := by
  unfold writeCustomProperties
  apply chunk_flatMap
  intro kv hkv
  split
  · rename_i hcond
    rw [Bool.and_eq_true] at hcond
    have hpre : gs "X-" <+: goToUpper kv.1 :=
      List.isPrefixOf_iff_prefix.mp hcond.1
    exact chunk_prefixed_folded Ps (gs "X-") hP _
      (hpre.trans (prefix_app2 _ _ _))
      (nlfree_append (nlfree_append (goToUpper_nlfree kv.1 (hkeys kv hkv))
        (by decide)) (escapeValue_nlfree _))
  · exact chunk_nil _

theorem prefix_concat_cr (A u : GoStr) (hcr : '\r' ∉ A)
    (h : A <+: u ++ ['\r']) : A <+: u := by
  rcases List.prefix_or_prefix_of_prefix h (List.prefix_append u ['\r']) with h1 | h2
  · exact h1
  · obtain ⟨s, hs⟩ := h2
    obtain ⟨t, ht⟩ := h
    rw [← hs, List.append_assoc] at ht
    have hst : s ++ t = ['\r'] := List.append_cancel_left ht
    cases s with
    | nil => rw [← hs, List.append_nil]
    | cons x s' =>
      have hx : x = '\r' ∧ s' ++ t = [] := by
        rw [List.cons_append] at hst
        exact ⟨(List.cons.inj hst).1, (List.cons.inj hst).2⟩
      exfalso
      apply hcr
      rw [← hs, hx.1]
      exact List.mem_append_right u (List.mem_cons_self _ _)

theorem prefixedPiece_ne (Ps : List GoStr) (a : Char) (A' : GoStr)
    (ha : a ≠ ' ') (hcr : '\r' ∉ a :: A')
    (hA : ∀ P ∈ Ps, ¬ (P <+: a :: A'))
    (q : GoStr) (hq : PrefixedPiece Ps q) : q ≠ a :: A' := by
  rcases hq with ⟨P, hP, ln, hPln, hform⟩ | ⟨t, rfl⟩
  · rcases hform with rfl | ⟨u, hu, rfl⟩
    · intro hcon
      exact hA P hP (hcon ▸ hPln)
    · intro hcon
      apply hcr
      rw [← hcon]
      exact List.mem_append_right u (List.mem_cons_self _ _)
  · intro hcon
    exact ha (List.cons.inj hcon).1.symm

theorem prefixedPiece_not_prefix (Ps : List GoStr) (a : Char) (A' : GoStr)
    (ha : a ≠ ' ') (hcr : '\r' ∉ a :: A')
    (hA : ∀ P ∈ Ps, ¬ ((a :: A') <+: P) ∧ ¬ (P <+: a :: A'))
    (q : GoStr) (hq : PrefixedPiece Ps q) : ¬ ((a :: A') <+: q) := by
  rcases hq with ⟨P, hP, ln, hPln, hform⟩ | ⟨t, rfl⟩
  · rcases hform with rfl | ⟨u, hu, rfl⟩
    · intro hcon
      rcases List.prefix_or_prefix_of_prefix hcon hPln with h1 | h2
      · exact (hA P hP).1 h1
      · exact (hA P hP).2 h2
    · intro hcon
      have h3 : (a :: A') <+: u := prefix_concat_cr _ _ hcr hcon
      have h4 : (a :: A') <+: ln := h3.trans hu
      rcases List.prefix_or_prefix_of_prefix h4 hPln with h1 | h2
      · exact (hA P hP).1 h1
      · exact (hA P hP).2 h2
  · intro hcon
    obtain ⟨t', ht'⟩ := hcon
    rw [List.cons_append] at ht'
    exact ha (List.cons.inj ht').1

/-- The property-line prefixes of the body, the `ANNIVERSARY` and `PHOTO`
writers apart (each claim adds back the ones it does not treat specially). -/
def mainPrefixes : List GoStr :=
  [gs "VERSION:", gs "N:", gs "FN:", gs "EMAIL", gs "TEL", gs "ADR", gs "LABEL",
   gs "ORG:", gs "TITLE:", gs "ROLE:", gs "URL", gs "NOTE:", gs "BDAY:", gs "X-"]

/-- Well-formedness of the verbatim-emitted string fields: no line feed in
the version, the photo, the type parameters, or the custom-property keys
(all other free text is escaped before emission, which removes line
feeds). -/
def Benign (v : VCard) : Prop :=
  '\n' ∉ v.version ∧ '\n' ∉ v.photo ∧
  (∀ e ∈ v.emails, '\n' ∉ e.TypeP) ∧
  (∀ p ∈ v.phones, '\n' ∉ p.TypeP) ∧
  (∀ a ∈ v.addresses, '\n' ∉ a.TypeP) ∧
  (∀ u ∈ v.urls, '\n' ∉ u.TypeP) ∧
  (∀ kv ∈ v.customProps, '\n' ∉ kv.1)

/-- The body from the `VERSION` line through the `URL` lines. -/
def vMidP1 (v : VCard) : GoStr :=
  (gs "VERSION:" ++ v.version ++ ['\n']) ++
  (writeNameProperties v ++
  (writeEmailProperties v ++
  (writePhoneProperties v ++
  (writeAddressProperties v ++
  (writeOrganizationProperties v ++
   writeURLProperties v)))))

/-- The `NOTE` and `BDAY` section. -/
def noteBday (v : VCard) : GoStr :=
  (if v.note ≠ [] then gs "NOTE:" ++ escapeValue v.note ++ ['\n'] else []) ++
  (match v.birthday with
   | some _ => writeBirthdayProperty v
   | none => [])

theorem renderVCard_shape (v : VCard) :
    renderVCard v =
      gs "BEGIN:VCARD" ++ '\n' ::
        (vMidP1 v ++
        ((if v.photo ≠ [] then writePhotoProperty v else []) ++
        (noteBday v ++
        ((match v.anniversary with
          | some _ => writeAnniversaryProperty v
          | none => []) ++
        (writeCustomProperties v ++
         (gs "END:VCARD" ++ ['\n'])))))) := by
  simp [renderVCard, vMidP1, noteBday, List.append_assoc]

theorem chunk_vMidP1 (Ps : List GoStr) (hsub : ∀ P ∈ mainPrefixes, P ∈ Ps)
    (v : VCard) (hben : Benign v) :
    ChunkPieces (PrefixedPiece Ps) (vMidP1 v) := by
  obtain ⟨hver, _, hety, hpty, haty, huty, _⟩ := hben
  unfold vMidP1
  refine chunk_append (chunk_prefixed_plain Ps (gs "VERSION:")
    (hsub _ (by decide)) _ (List.prefix_append _ _)
    (nlfree_append (by decide) hver)) ?_
  refine chunk_append (chunk_name Ps (hsub _ (by decide)) (hsub _ (by decide)) v) ?_
  refine chunk_append (chunk_emails Ps (hsub _ (by decide)) v hety) ?_
  refine chunk_append (chunk_phones Ps (hsub _ (by decide)) v hpty) ?_
  refine chunk_append (chunk_addresses Ps (hsub _ (by decide))
    (hsub _ (by decide)) v haty) ?_
  exact chunk_append (chunk_org Ps (hsub _ (by decide)) (hsub _ (by decide))
    (hsub _ (by decide)) v) (chunk_urls Ps (hsub _ (by decide)) v huty)

theorem chunk_noteBday (Ps : List GoStr) (hsub : ∀ P ∈ mainPrefixes, P ∈ Ps)
    (v : VCard) : ChunkPieces (PrefixedPiece Ps) (noteBday v) := by
  unfold noteBday
  refine chunk_append ?_ ?_
  · split
    · exact chunk_prefixed_plain Ps (gs "NOTE:") (hsub _ (by decide)) _
        (List.prefix_append _ _) (nlfree_append (by decide) (escapeValue_nlfree _))
    · exact chunk_nil _
  · cases v.birthday with
    | none => exact chunk_nil _
    | some d =>
      show ChunkPieces (PrefixedPiece Ps) (writeBirthdayProperty v)
      exact chunk_bday Ps (hsub _ (by decide)) v

/-- All body prefixes, for claims that treat no writer specially. -/
def allPrefixes : List GoStr := gs "ANNIVERSARY:" :: gs "PHOTO;" :: mainPrefixes

theorem chunk_photoIf (Ps : List GoStr) (hP : gs "PHOTO;" ∈ Ps) (v : VCard)
    (hphoto : '\n' ∉ v.photo) :
    ChunkPieces (PrefixedPiece Ps)
      (if v.photo ≠ [] then writePhotoProperty v else []) := by
  split
  · exact chunk_photo Ps hP v hphoto
  · exact chunk_nil _

theorem chunk_annivM (Ps : List GoStr) (hP : gs "ANNIVERSARY:" ∈ Ps) (v : VCard) :
    ChunkPieces (PrefixedPiece Ps)
      (match v.anniversary with
       | some _ => writeAnniversaryProperty v
       | none => []) := by
  cases v.anniversary with
  | none => exact chunk_nil _
  | some d =>
    show ChunkPieces (PrefixedPiece Ps) (writeAnniversaryProperty v)
    exact chunk_anniv Ps hP v

theorem chunk_body_all (v : VCard) (hben : Benign v) :
    ChunkPieces (PrefixedPiece allPrefixes)
      (vMidP1 v ++
       ((if v.photo ≠ [] then writePhotoProperty v else []) ++
        (noteBday v ++
         ((match v.anniversary with
           | some _ => writeAnniversaryProperty v
           | none => []) ++
          writeCustomProperties v)))) := by
  have hsub : ∀ P ∈ mainPrefixes, P ∈ allPrefixes := by decide
  refine chunk_append (chunk_vMidP1 allPrefixes hsub v hben) ?_
  refine chunk_append (chunk_photoIf allPrefixes (by decide) v hben.2.1) ?_
  refine chunk_append (chunk_noteBday allPrefixes hsub v) ?_
  exact chunk_append (chunk_annivM allPrefixes (by decide) v)
    (chunk_custom allPrefixes (by decide) v hben.2.2.2.2.2.2)

theorem splitNL_endUnit (rest : GoStr) :
    splitNL ((gs "END:VCARD" ++ ['\n']) ++ rest) = gs "END:VCARD" :: splitNL rest := by
  have h : (gs "END:VCARD" ++ ['\n']) ++ rest = gs "END:VCARD" ++ '\n' :: rest := by
    simp
  rw [h, splitNL_append_nl _ _ (by decide)]

/-- C5, amended: for every contact that validates and whose verbatim string
fields (version, photo, type parameters, custom keys) contain no line feed,
the physical lines of `String()`'s output are exactly one `BEGIN:VCARD`
line (the first), a middle containing neither marker, one `END:VCARD` line,
and the empty remainder after the final newline. -/
theorem C5_begin_end_once (v : VCard) (hval : v.Validate = none)
    (hben : Benign v) :
    ∃ out M, v.goString = Except.ok out ∧
      splitNL out = gs "BEGIN:VCARD" :: (M ++ [gs "END:VCARD", []]) ∧
      ∀ q ∈ M, q ≠ gs "BEGIN:VCARD" ∧ q ≠ gs "END:VCARD" := by
  have hout : v.goString = Except.ok (renderVCard v) := by
    unfold VCard.goString
    rw [hval]
  obtain ⟨ps, hps, hQ⟩ := chunk_body_all v hben (gs "END:VCARD" ++ ['\n'])
  refine ⟨renderVCard v, ps, hout, ?_, ?_⟩
  · rw [renderVCard_shape v, splitNL_append_nl _ _ (by decide)]
    have hre : vMidP1 v ++
        ((if v.photo ≠ [] then writePhotoProperty v else []) ++
         (noteBday v ++
          ((match v.anniversary with
            | some _ => writeAnniversaryProperty v
            | none => []) ++
           (writeCustomProperties v ++ (gs "END:VCARD" ++ ['\n']))))) =
        (vMidP1 v ++
         ((if v.photo ≠ [] then writePhotoProperty v else []) ++
          (noteBday v ++
           ((match v.anniversary with
             | some _ => writeAnniversaryProperty v
             | none => []) ++
            writeCustomProperties v)))) ++ (gs "END:VCARD" ++ ['\n']) := by
      simp [List.append_assoc]
    rw [hre, hps]
    have hEnd : splitNL (gs "END:VCARD" ++ ['\n']) = [gs "END:VCARD", []] := by
      decide
    rw [hEnd]
  · intro q hq
    have hQq := hQ q hq
    constructor
    · have hBe : gs "BEGIN:VCARD" = 'B' :: gs "EGIN:VCARD" := by decide
      rw [hBe]
      exact prefixedPiece_ne allPrefixes 'B' (gs "EGIN:VCARD") (by decide)
        (by decide) (by decide) q hQq
    · have hEe : gs "END:VCARD" = 'E' :: gs "ND:VCARD" := by decide
      rw [hEe]
      exact prefixedPiece_ne allPrefixes 'E' (gs "ND:VCARD") (by decide)
        (by decide) (by decide) q hQq

/-- The name used by the concrete witness cards. -/
def plainName : Name :=
  { Last := gs "Doe", First := gs "John", Middle := [],
    Prefix := [], Suffix := [] }

/-- C5, witness contact: a plain valid card. -/
def plainCard : VCard :=
  { New with name := plainName }

/-- C5, witness for the amended theorem. -/
theorem C5_witness :
    VCard.Validate plainCard = none ∧ Benign plainCard ∧
    ∃ out M, VCard.goString plainCard = Except.ok out ∧
      splitNL out = gs "BEGIN:VCARD" :: (M ++ [gs "END:VCARD", []]) ∧
      ∀ q ∈ M, q ≠ gs "BEGIN:VCARD" ∧ q ≠ gs "END:VCARD" :=
  ⟨by decide, by refine ⟨by decide, by decide, ?_, ?_, ?_, ?_, ?_⟩ <;> intro x hx <;>
      simp [plainCard, New] at hx,
    C5_begin_end_once plainCard (by decide)
      ⟨by decide, by decide, by intro x hx; simp [plainCard, New] at hx,
       by intro x hx; simp [plainCard, New] at hx,
       by intro x hx; simp [plainCard, New] at hx,
       by intro x hx; simp [plainCard, New] at hx,
       by intro x hx; simp [plainCard, New] at hx⟩⟩

/-- C5, counterexample: the claim as stated fails without the line-feed
restriction: the photo string is emitted verbatim, so a valid contact whose
photo contains a line feed followed by `END:VCARD` produces two `END:VCARD`
lines. -/
def c5card : VCard :=
  { plainCard with photo := gs "x\nEND:VCARD" }

theorem C5_counterexample :
    ∃ out, VCard.goString c5card = Except.ok out ∧
      (splitNL out).count (gs "END:VCARD") = 2 :=
  ⟨renderVCard c5card, by rfl, by decide⟩

/-- Body prefixes for the anniversary claim: everything except
`ANNIVERSARY:`. -/
def noAnnivPrefixes : List GoStr := gs "PHOTO;" :: mainPrefixes

theorem writeAnniversary_none (v : VCard) (d : GoDate)
    (hd : v.anniversary = some d) (hv : v.version ≠ Version40) :
    writeAnniversaryProperty v = [] := by
  unfold writeAnniversaryProperty
  rw [hd]
  exact if_neg hv

theorem writeAnniversary_some (v : VCard) (d : GoDate)
    (hd : v.anniversary = some d) (hv : v.version = Version40) :
    writeAnniversaryProperty v = gs "ANNIVERSARY:" ++ formatDate d ++ ['\n'] := by
  unfold writeAnniversaryProperty
  rw [hd]
  exact if_pos hv

/-- C6, amended: for a contact with an anniversary set that validates and
whose verbatim string fields contain no line feed, the output has a
physical line starting with `ANNIVERSARY:` exactly when the version is
`4.0`; under any other version (in particular `3.0`) the property is
silently suppressed. -/
theorem C6_anniversary_iff (v : VCard) (d : GoDate) (hd : v.anniversary = some d)
    (hval : v.Validate = none) (hben : Benign v) :
    ∃ out, v.goString = Except.ok out ∧
      ((∃ q ∈ splitNL out, gs "ANNIVERSARY:" <+: q) ↔ v.version = Version40) := by
  have hout : v.goString = Except.ok (renderVCard v) := by
    unfold VCard.goString
    rw [hval]
  refine ⟨renderVCard v, hout, ?_, ?_⟩
  · intro ⟨q, hq, hqpre⟩
    by_cases hv : v.version = Version40
    · exact hv
    exfalso
    have hsub : ∀ P ∈ mainPrefixes, P ∈ noAnnivPrefixes := by decide
    have hchunk : ChunkPieces (PrefixedPiece noAnnivPrefixes)
        (vMidP1 v ++
         ((if v.photo ≠ [] then writePhotoProperty v else []) ++
          (noteBday v ++
           ((match v.anniversary with
             | some _ => writeAnniversaryProperty v
             | none => []) ++
            writeCustomProperties v)))) := by
      refine chunk_append (chunk_vMidP1 noAnnivPrefixes hsub v hben) ?_
      refine chunk_append (chunk_photoIf noAnnivPrefixes (by decide) v hben.2.1) ?_
      refine chunk_append (chunk_noteBday noAnnivPrefixes hsub v) ?_
      refine chunk_append ?_ (chunk_custom noAnnivPrefixes (by decide) v
        hben.2.2.2.2.2.2)
      rw [hd]
      show ChunkPieces (PrefixedPiece noAnnivPrefixes) (writeAnniversaryProperty v)
      rw [writeAnniversary_none v d hd hv]
      exact chunk_nil _
    obtain ⟨ps, hps, hQ⟩ := hchunk (gs "END:VCARD" ++ ['\n'])
    rw [renderVCard_shape v, splitNL_append_nl _ _ (by decide)] at hq
    have hre : vMidP1 v ++
        ((if v.photo ≠ [] then writePhotoProperty v else []) ++
         (noteBday v ++
          ((match v.anniversary with
            | some _ => writeAnniversaryProperty v
            | none => []) ++
           (writeCustomProperties v ++ (gs "END:VCARD" ++ ['\n']))))) =
        (vMidP1 v ++
         ((if v.photo ≠ [] then writePhotoProperty v else []) ++
          (noteBday v ++
           ((match v.anniversary with
             | some _ => writeAnniversaryProperty v
             | none => []) ++
            writeCustomProperties v)))) ++ (gs "END:VCARD" ++ ['\n']) := by
      simp [List.append_assoc]
    rw [hre, hps] at hq
    have hEnd : splitNL (gs "END:VCARD" ++ ['\n']) = [gs "END:VCARD", []] := by
      decide
    rw [hEnd] at hq
    have hA : gs "ANNIVERSARY:" = 'A' :: gs "NNIVERSARY:" := by decide
    rcases List.mem_cons.mp hq with rfl | hq1
    · exact absurd hqpre (by decide)
    rcases List.mem_append.mp hq1 with hq2 | hq3
    · rw [hA] at hqpre
      exact prefixedPiece_not_prefix noAnnivPrefixes 'A' (gs "NNIVERSARY:")
        (by decide) (by decide) (by decide) q (hQ q hq2) hqpre
    rcases List.mem_cons.mp hq3 with rfl | hq4
    · exact absurd hqpre (by decide)
    rcases List.mem_cons.mp hq4 with rfl | hq5
    · exact absurd hqpre (by decide)
    · simp at hq5
  · intro hv
    refine ⟨gs "ANNIVERSARY:" ++ formatDate d, ?_, List.prefix_append _ _⟩
    have hchunk1 : ChunkPieces (PrefixedPiece noAnnivPrefixes)
        (vMidP1 v ++
         ((if v.photo ≠ [] then writePhotoProperty v else []) ++ noteBday v)) := by
      have hsub : ∀ P ∈ mainPrefixes, P ∈ noAnnivPrefixes := by decide
      refine chunk_append (chunk_vMidP1 noAnnivPrefixes hsub v hben) ?_
      exact chunk_append (chunk_photoIf noAnnivPrefixes (by decide) v hben.2.1)
        (chunk_noteBday noAnnivPrefixes hsub v)
    rw [renderVCard_shape v, splitNL_append_nl _ _ (by decide)]
    have hmid : (match v.anniversary with
        | some _ => writeAnniversaryProperty v
        | none => []) = gs "ANNIVERSARY:" ++ formatDate d ++ ['\n'] := by
      rw [hd]
      exact writeAnniversary_some v d hd hv
    rw [hmid]
    have hre : vMidP1 v ++
        ((if v.photo ≠ [] then writePhotoProperty v else []) ++
         (noteBday v ++
          ((gs "ANNIVERSARY:" ++ formatDate d ++ ['\n']) ++
           (writeCustomProperties v ++ (gs "END:VCARD" ++ ['\n']))))) =
        (vMidP1 v ++
         ((if v.photo ≠ [] then writePhotoProperty v else []) ++ noteBday v)) ++
        ((gs "ANNIVERSARY:" ++ formatDate d) ++ '\n' ::
          (writeCustomProperties v ++ (gs "END:VCARD" ++ ['\n']))) := by
      simp [List.append_assoc]
    rw [hre]
    obtain ⟨ps, hps, _⟩ := hchunk1 ((gs "ANNIVERSARY:" ++ formatDate d) ++ '\n' ::
      (writeCustomProperties v ++ (gs "END:VCARD" ++ ['\n'])))
    rw [hps, splitNL_append_nl _ _
      (nlfree_append (by decide) (formatDate_nlfree d))]
    exact List.mem_cons_of_mem _ (List.mem_append_right _ (List.mem_cons_self _ _))

/-- C6, witness contact: a 4.0 card with an anniversary. -/
def w6card : VCard :=
  { plainCard with version := Version40, anniversary := some ⟨2020, 1, 2⟩ }

/-- C6, witness for the amended theorem at a concrete 4.0 contact. -/
theorem C6_witness :
    w6card.anniversary = some ⟨2020, 1, 2⟩ ∧ VCard.Validate w6card = none ∧
    Benign w6card ∧
    ∃ out, VCard.goString w6card = Except.ok out ∧
      ((∃ q ∈ splitNL out, gs "ANNIVERSARY:" <+: q) ↔ w6card.version = Version40) :=
  ⟨rfl, by decide, by unfold Benign; decide,
    C6_anniversary_iff w6card ⟨2020, 1, 2⟩ rfl (by decide) (by unfold Benign; decide)⟩

/-- C6, counterexample contact: a valid 3.0 card with an anniversary whose
photo smuggles an `ANNIVERSARY:` line into the output. -/
def c6card : VCard :=
  { plainCard with anniversary := some ⟨2020, 1, 2⟩, photo := gs "x\nANNIVERSARY:1999-12-31" }

/-- C6, counterexample: the claim's only-if direction fails as stated — a
version-3.0 contact with anniversary set whose output does contain an
`ANNIVERSARY:` line. -/
theorem C6_counterexample :
    c6card.version = Version30 ∧ c6card.anniversary = some ⟨2020, 1, 2⟩ ∧
    ∃ out, VCard.goString c6card = Except.ok out ∧
      ∃ q ∈ splitNL out, gs "ANNIVERSARY:" <+: q :=
  ⟨rfl, rfl, renderVCard c6card, by rfl,
    ⟨gs "ANNIVERSARY:1999-12-31", by decide, by decide⟩⟩

/-- The photo property line chosen by prefix-sniffing (both the claim's
description and the source's construction): `http://`/`https://` gives a
URI line, `data:` a binary-encoded line, anything else a binary JPEG
line, the photo string always verbatim. -/
def photoLine (v : VCard) : GoStr :=
  if (gs "http://").isPrefixOf v.photo || (gs "https://").isPrefixOf v.photo then
    gs "PHOTO;VALUE=uri:" ++ v.photo
  else if (gs "data:").isPrefixOf v.photo then
    gs "PHOTO;ENCODING=b:" ++ v.photo
  else
    gs "PHOTO;ENCODING=b;TYPE=JPEG:" ++ v.photo

theorem writePhoto_eq (v : VCard) (hne : v.photo ≠ []) :
    writePhotoProperty v = foldLine (photoLine v) ++ ['\n'] := by
  unfold writePhotoProperty photoLine
  rw [if_neg hne]
  split_ifs <;> rfl

theorem photoLine_pref (v : VCard) : gs "PHOTO" <+: photoLine v := by
  unfold photoLine
  split_ifs
  · exact (by decide : gs "PHOTO" <+: gs "PHOTO;VALUE=uri:").trans
      (List.prefix_append _ _)
  · exact (by decide : gs "PHOTO" <+: gs "PHOTO;ENCODING=b:").trans
      (List.prefix_append _ _)
  · exact (by decide : gs "PHOTO" <+: gs "PHOTO;ENCODING=b;TYPE=JPEG:").trans
      (List.prefix_append _ _)

theorem photoLine_nlfree (v : VCard) (h : '\n' ∉ v.photo) :
    '\n' ∉ photoLine v := by
  unfold photoLine
  split_ifs
  · exact nlfree_append (by decide) h
  · exact nlfree_append (by decide) h
  · exact nlfree_append (by decide) h

/-- Body prefixes for the photo claim: everything except `PHOTO;`. -/
def noPhotoPrefixes : List GoStr := gs "ANNIVERSARY:" :: mainPrefixes

theorem chunk_body_nophoto (v : VCard) (hben : Benign v) :
    ChunkPieces (PrefixedPiece noPhotoPrefixes)
      (noteBday v ++
       ((match v.anniversary with
         | some _ => writeAnniversaryProperty v
         | none => []) ++
        writeCustomProperties v)) := by
  have hsub : ∀ P ∈ mainPrefixes, P ∈ noPhotoPrefixes := by decide
  refine chunk_append (chunk_noteBday noPhotoPrefixes hsub v) ?_
  exact chunk_append (chunk_annivM noPhotoPrefixes (by decide) v)
    (chunk_custom noPhotoPrefixes (by decide) v hben.2.2.2.2.2.2)

theorem noPhoto_pieces_fail (q : GoStr)
    (hq : PrefixedPiece noPhotoPrefixes q) :
    (gs "PHOTO").isPrefixOf q = false := by
  cases hb : (gs "PHOTO").isPrefixOf q with
  | false => rfl
  | true =>
    exfalso
    have hpre : gs "PHOTO" <+: q := List.isPrefixOf_iff_prefix.mp hb
    have hP : gs "PHOTO" = 'P' :: gs "HOTO" := by decide
    rw [hP] at hpre
    exact prefixedPiece_not_prefix noPhotoPrefixes 'P' (gs "HOTO")
      (by decide) (by decide) (by decide) q hq hpre

/-- C7, amended: for every contact that validates and whose verbatim
string fields contain no line feed: when the photo is empty no physical
line starts with `PHOTO`; when it is non-empty and the chosen photo line
is short enough not to fold, exactly one physical line starts with
`PHOTO`, namely the line selected by prefix-sniffing (URI for
`http://`/`https://`, `ENCODING=b` for `data:`, `ENCODING=b;TYPE=JPEG`
otherwise), carrying the photo string verbatim. -/
theorem C7_photo_line (v : VCard) (hval : v.Validate = none) (hben : Benign v) :
    ∃ out, v.goString = Except.ok out ∧
      ((v.photo = [] →
        (splitNL out).countP (fun q => (gs "PHOTO").isPrefixOf q) = 0) ∧
       (v.photo ≠ [] → goByteLen (photoLine v) ≤ 75 →
        photoLine v ∈ splitNL out ∧
        (splitNL out).countP (fun q => (gs "PHOTO").isPrefixOf q) = 1)) := by
  have hout : v.goString = Except.ok (renderVCard v) := by
    unfold VCard.goString
    rw [hval]
  have hsub : ∀ P ∈ mainPrefixes, P ∈ noPhotoPrefixes := by decide
  obtain ⟨psB, hpsB, hQB⟩ := chunk_body_nophoto v hben (gs "END:VCARD" ++ ['\n'])
  have hreB : noteBday v ++
      ((match v.anniversary with
        | some _ => writeAnniversaryProperty v
        | none => []) ++
       (writeCustomProperties v ++ (gs "END:VCARD" ++ ['\n']))) =
      (noteBday v ++
       ((match v.anniversary with
         | some _ => writeAnniversaryProperty v
         | none => []) ++
        writeCustomProperties v)) ++ (gs "END:VCARD" ++ ['\n']) := by
    simp [List.append_assoc]
  have hEnd : splitNL (gs "END:VCARD" ++ ['\n']) = [gs "END:VCARD", []] := by
    decide
  have hcntB : psB.countP (fun q => (gs "PHOTO").isPrefixOf q) = 0 :=
    List.countP_eq_zero.mpr (fun q hq => by
      rw [noPhoto_pieces_fail q (hQB q hq)]
      simp)
  refine ⟨renderVCard v, hout, ?_, ?_⟩
  · intro hphoto
    obtain ⟨psA, hpsA, hQA⟩ := chunk_vMidP1 noPhotoPrefixes hsub v hben
      (noteBday v ++
       ((match v.anniversary with
         | some _ => writeAnniversaryProperty v
         | none => []) ++
        (writeCustomProperties v ++ (gs "END:VCARD" ++ ['\n']))))
    have hcntA : psA.countP (fun q => (gs "PHOTO").isPrefixOf q) = 0 :=
      List.countP_eq_zero.mpr (fun q hq => by
        rw [noPhoto_pieces_fail q (hQA q hq)]
        simp)
    rw [renderVCard_shape v, splitNL_append_nl _ _ (by decide)]
    have hif : (if v.photo ≠ [] then writePhotoProperty v else []) = [] := by
      rw [if_neg]
      intro hcon
      exact hcon hphoto
    rw [hif, List.nil_append, hpsA, hreB, hpsB, hEnd]
    rw [List.countP_cons, List.countP_append, List.countP_append, hcntA, hcntB]
    decide
  · intro hphoto hshort
    obtain ⟨psA, hpsA, hQA⟩ := chunk_vMidP1 noPhotoPrefixes hsub v hben
      ((photoLine v) ++ '\n' ::
       (noteBday v ++
        ((match v.anniversary with
          | some _ => writeAnniversaryProperty v
          | none => []) ++
         (writeCustomProperties v ++ (gs "END:VCARD" ++ ['\n'])))))
    have hcntA : psA.countP (fun q => (gs "PHOTO").isPrefixOf q) = 0 :=
      List.countP_eq_zero.mpr (fun q hq => by
        rw [noPhoto_pieces_fail q (hQA q hq)]
        simp)
    rw [renderVCard_shape v, splitNL_append_nl _ _ (by decide)]
    have hif : (if v.photo ≠ [] then writePhotoProperty v else []) =
        photoLine v ++ ['\n'] := by
      rw [if_pos hphoto, writePhoto_eq v hphoto, foldLine, if_pos hshort]
    rw [hif]
    have hre2 : (photoLine v ++ ['\n']) ++
        (noteBday v ++
         ((match v.anniversary with
           | some _ => writeAnniversaryProperty v
           | none => []) ++
          (writeCustomProperties v ++ (gs "END:VCARD" ++ ['\n'])))) =
        photoLine v ++ '\n' ::
        (noteBday v ++
         ((match v.anniversary with
           | some _ => writeAnniversaryProperty v
           | none => []) ++
          (writeCustomProperties v ++ (gs "END:VCARD" ++ ['\n'])))) := by
      simp
    rw [hre2, hpsA, splitNL_append_nl _ _ (photoLine_nlfree v hben.2.1), hreB,
      hpsB, hEnd]
    constructor
    · exact List.mem_cons_of_mem _ (List.mem_append_right _ (List.mem_cons_self _ _))
    · rw [List.countP_cons, List.countP_append, List.countP_cons, hcntA]
      rw [List.countP_append, hcntB]
      have hp : (gs "PHOTO").isPrefixOf (photoLine v) = true :=
        List.isPrefixOf_iff_prefix.mpr (photoLine_pref v)
      rw [hp]
      decide

/-- C7, witness contact: a URL photo. -/
def w7card : VCard := { plainCard with photo := gs "http://x/y.jpg" }

/-- C7, witness for the amended theorem. -/
theorem C7_witness :
    VCard.Validate w7card = none ∧ Benign w7card ∧
    ∃ out, VCard.goString w7card = Except.ok out ∧
      ((w7card.photo = [] →
        (splitNL out).countP (fun q => (gs "PHOTO").isPrefixOf q) = 0) ∧
       (w7card.photo ≠ [] → goByteLen (photoLine w7card) ≤ 75 →
        photoLine w7card ∈ splitNL out ∧
        (splitNL out).countP (fun q => (gs "PHOTO").isPrefixOf q) = 1)) :=
  ⟨by decide, by unfold Benign; decide,
    C7_photo_line w7card (by decide) (by unfold Benign; decide)⟩

/-- C7, counterexample contact: an `http://` photo containing a line feed
and a second `PHOTO` line. -/
def c7card : VCard :=
  { plainCard with photo := gs "http://a\nPHOTO;VALUE=uri:b" }

/-- C7, counterexample: as stated (for every contact), the exactly-one
property fails — the verbatim photo smuggles a second `PHOTO` line. -/
theorem C7_counterexample :
    ∃ out, VCard.goString c7card = Except.ok out ∧
      (splitNL out).countP (fun q => (gs "PHOTO").isPrefixOf q) = 2 :=
  ⟨renderVCard c7card, by rfl, by decide⟩

/-- The emission condition of `writeCustomProperties`: the upper-cased key
starts with `X-` and the value is non-empty. -/
def customCond (kv : GoStr × GoStr) : Bool :=
  (gs "X-").isPrefixOf (goToUpper kv.1) && !kv.2.isEmpty

/-- The emitted custom-property line: upper-cased key, colon, escaped
value. -/
def customLine (kv : GoStr × GoStr) : GoStr :=
  goToUpper kv.1 ++ [':'] ++ escapeValue kv.2

theorem writeCustom_eq (v : VCard) :
    writeCustomProperties v = v.customProps.flatMap (fun kv =>
      if customCond kv then foldLine (customLine kv) ++ ['\n'] else []) := rfl

/-- Texts that end with a newline (or are empty): appending such a text
never glues onto the first piece of what follows. -/
def EndsNL (X : GoStr) : Prop := X = [] ∨ ∃ Y, X = Y ++ ['\n']

theorem endsNL_nil : EndsNL [] := Or.inl rfl

theorem endsNL_unit (U : GoStr) : EndsNL (U ++ ['\n']) := Or.inr ⟨U, rfl⟩

theorem endsNL_append {X Y : GoStr} (hX : EndsNL X) (hY : EndsNL Y) :
    EndsNL (X ++ Y) := by
  rcases hY with rfl | ⟨Y', rfl⟩
  · rw [List.append_nil]
    exact hX
  · exact Or.inr ⟨X ++ Y', by rw [List.append_assoc]⟩

theorem endsNL_flatMap {α : Type} (W : α → GoStr) (l : List α)
    (h : ∀ x ∈ l, EndsNL (W x)) : EndsNL (l.flatMap W) := by
  induction l with
  | nil => exact endsNL_nil
  | cons x t ih =>
    rw [List.flatMap_cons]
    exact endsNL_append (h x (List.mem_cons_self x t))
      (ih (fun y hy => h y (List.mem_cons_of_mem x hy)))

theorem endsNL_split {X : GoStr} (h : EndsNL X) (Y : GoStr) :
    ∃ pre, splitNL (X ++ Y) = pre ++ splitNL Y := by
  rcases h with rfl | ⟨X', rfl⟩
  · exact ⟨[], by simp⟩
  · have hre : (X' ++ ['\n']) ++ Y = X' ++ '\n' :: Y := by simp
    rw [hre]
    obtain ⟨pre, _, hpre⟩ := splitNL_append_pre X' Y
    exact ⟨pre, hpre⟩

theorem endsNL_writeName (v : VCard) : EndsNL (writeNameProperties v) := by
  unfold writeNameProperties
  refine endsNL_append (endsNL_unit _) ?_
  split
  · exact endsNL_unit _
  · exact endsNL_nil

theorem endsNL_vMidP1 (v : VCard) : EndsNL (vMidP1 v) := by
  unfold vMidP1
  refine endsNL_append (endsNL_unit _) ?_
  refine endsNL_append (endsNL_writeName v) ?_
  refine endsNL_append (endsNL_flatMap _ _ (fun e _ => endsNL_unit _)) ?_
  refine endsNL_append (endsNL_flatMap _ _ (fun p _ => endsNL_unit _)) ?_
  refine endsNL_append (endsNL_flatMap _ _ (fun a _ => by
    refine endsNL_append (endsNL_unit _) ?_
    split
    · exact endsNL_unit _
    · exact endsNL_nil)) ?_
  refine endsNL_append ?_ (endsNL_flatMap _ _ (fun u _ => endsNL_unit _))
  unfold writeOrganizationProperties
  refine endsNL_append (endsNL_append ?_ ?_) ?_ <;> split <;>
    first
      | exact endsNL_unit _
      | exact endsNL_nil

theorem endsNL_photoIf (v : VCard) :
    EndsNL (if v.photo ≠ [] then writePhotoProperty v else []) := by
  split
  · unfold writePhotoProperty
    split
    · exact endsNL_nil
    split
    · exact endsNL_unit _
    split
    · exact endsNL_unit _
    · exact endsNL_unit _
  · exact endsNL_nil

theorem endsNL_noteBday (v : VCard) : EndsNL (noteBday v) := by
  unfold noteBday
  refine endsNL_append ?_ ?_
  · split
    · exact endsNL_unit _
    · exact endsNL_nil
  · cases v.birthday with
    | none => exact endsNL_nil
    | some d =>
      show EndsNL (writeBirthdayProperty v)
      unfold writeBirthdayProperty
      cases v.birthday with
      | none => exact endsNL_nil
      | some d' => exact endsNL_unit _

theorem endsNL_annivM (v : VCard) :
    EndsNL (match v.anniversary with
            | some _ => writeAnniversaryProperty v
            | none => []) := by
  cases v.anniversary with
  | none => exact endsNL_nil
  | some d =>
    show EndsNL (writeAnniversaryProperty v)
    unfold writeAnniversaryProperty
    cases v.anniversary with
    | none => exact endsNL_nil
    | some d' =>
      show EndsNL (if v.version = Version40 then
        gs "ANNIVERSARY:" ++ formatDate d' ++ ['\n'] else [])
      by_cases hv : v.version = Version40
      · rw [if_pos hv]
        exact endsNL_unit _
      · rw [if_neg hv]
        exact endsNL_nil

theorem customLine_nlfree (kv : GoStr × GoStr) (h : '\n' ∉ kv.1) :
    '\n' ∉ customLine kv := by
  unfold customLine
  exact nlfree_append (nlfree_append (goToUpper_nlfree kv.1 h) (by decide))
    (escapeValue_nlfree _)

theorem custom_split (l : List (GoStr × GoStr))
    (hkeys : ∀ kv ∈ l, '\n' ∉ kv.1)
    (hshort : ∀ kv ∈ l, goByteLen (customLine kv) ≤ 75) :
    ∀ rest, splitNL (l.flatMap (fun kv =>
        if customCond kv then foldLine (customLine kv) ++ ['\n'] else []) ++ rest) =
      (l.filter customCond).map customLine ++ splitNL rest := by
  induction l with
  | nil => intro rest; simp
  | cons kv t ih =>
    intro rest
    rw [List.flatMap_cons]
    by_cases hc : customCond kv
    · rw [if_pos hc]
      have hfold : foldLine (customLine kv) = customLine kv := by
        rw [foldLine, if_pos (hshort kv (List.mem_cons_self _ _))]
      rw [hfold]
      have hre : ((customLine kv ++ ['\n']) ++
          (t.flatMap (fun kv =>
            if customCond kv then foldLine (customLine kv) ++ ['\n'] else []))) ++
          rest =
          customLine kv ++ '\n' ::
            (t.flatMap (fun kv =>
              if customCond kv then foldLine (customLine kv) ++ ['\n'] else []) ++
             rest) := by
        simp
      rw [hre, splitNL_append_nl _ _
        (customLine_nlfree kv (hkeys kv (List.mem_cons_self _ _)))]
      rw [ih (fun x hx => hkeys x (List.mem_cons_of_mem kv hx))
        (fun x hx => hshort x (List.mem_cons_of_mem kv hx)) rest]
      rw [List.filter_cons_of_pos hc, List.map_cons]
      rfl
    · rw [if_neg hc, List.nil_append]
      rw [ih (fun x hx => hkeys x (List.mem_cons_of_mem kv hx))
        (fun x hx => hshort x (List.mem_cons_of_mem kv hx)) rest]
      rw [List.filter_cons_of_neg hc]

/-- C10: a custom-property entry is emitted exactly when its key
case-insensitively starts with `X-` and its value is non-empty; the custom
section of the output consists precisely of the lines of those entries, in
order, each line the upper-cased key, a colon, and the escaped value
(entries with an `X-` key but empty value are silently omitted).  The
hypotheses pin the textual-line representation and the embedding's scope:
keys are ASCII (single-byte runes, on which the embedded `ToUpper` is
exactly Go's `strings.ToUpper`) and contain no line feed, and the emitted
lines are short enough not to fold. -/
theorem C10_custom_properties (v : VCard) (hval : v.Validate = none)
    (hascii : ∀ kv ∈ v.customProps, ∀ c ∈ kv.1, Char.utf8Size c = 1)
    (hkeys : ∀ kv ∈ v.customProps, '\n' ∉ kv.1)
    (hshort : ∀ kv ∈ v.customProps, goByteLen (customLine kv) ≤ 75) :
    ∃ out pre, v.goString = Except.ok out ∧
      splitNL out = pre ++
        ((v.customProps.filter customCond).map customLine ++
         [gs "END:VCARD", []]) := by
  have hout : v.goString = Except.ok (renderVCard v) := by
    unfold VCard.goString
    rw [hval]
  obtain ⟨pre1, hpre1⟩ := endsNL_split (endsNL_vMidP1 v)
    ((if v.photo ≠ [] then writePhotoProperty v else []) ++
     (noteBday v ++
      ((match v.anniversary with
        | some _ => writeAnniversaryProperty v
        | none => []) ++
       (writeCustomProperties v ++ (gs "END:VCARD" ++ ['\n'])))))
  obtain ⟨pre2, hpre2⟩ := endsNL_split (endsNL_photoIf v)
    (noteBday v ++
     ((match v.anniversary with
       | some _ => writeAnniversaryProperty v
       | none => []) ++
      (writeCustomProperties v ++ (gs "END:VCARD" ++ ['\n']))))
  obtain ⟨pre3, hpre3⟩ := endsNL_split (endsNL_noteBday v)
    ((match v.anniversary with
      | some _ => writeAnniversaryProperty v
      | none => []) ++
     (writeCustomProperties v ++ (gs "END:VCARD" ++ ['\n'])))
  obtain ⟨pre4, hpre4⟩ := endsNL_split (endsNL_annivM v)
    (writeCustomProperties v ++ (gs "END:VCARD" ++ ['\n']))
  have hcust : splitNL (writeCustomProperties v ++ (gs "END:VCARD" ++ ['\n'])) =
      (v.customProps.filter customCond).map customLine ++ [gs "END:VCARD", []] := by
    rw [writeCustom_eq, custom_split v.customProps hkeys hshort]
    have hEnd : splitNL (gs "END:VCARD" ++ ['\n']) = [gs "END:VCARD", []] := by
      decide
    rw [hEnd]
  refine ⟨renderVCard v, [gs "BEGIN:VCARD"] ++ pre1 ++ pre2 ++ pre3 ++ pre4,
    hout, ?_⟩
  rw [renderVCard_shape v, splitNL_append_nl _ _ (by decide), hpre1, hpre2,
    hpre3, hpre4, hcust]
  simp [List.append_assoc]

/-- C10, witness contact: one emitted entry, one empty-valued `X-` entry
silently omitted, one non-`X-` entry ignored. -/
def w10card : VCard :=
  { plainCard with customProps :=
      [(gs "x-tool", gs "demo"), (gs "X-EMPTY", []), (gs "other", gs "v")] }

/-- C10, witness. -/
theorem C10_witness :
    VCard.Validate w10card = none ∧
    (∀ kv ∈ w10card.customProps, ∀ c ∈ kv.1, Char.utf8Size c = 1) ∧
    (∀ kv ∈ w10card.customProps, '\n' ∉ kv.1) ∧
    (∀ kv ∈ w10card.customProps, goByteLen (customLine kv) ≤ 75) ∧
    ∃ out pre, VCard.goString w10card = Except.ok out ∧
      splitNL out = pre ++
        ((w10card.customProps.filter customCond).map customLine ++
         [gs "END:VCARD", []]) :=
  ⟨by decide, by decide, by decide, by decide,
    C10_custom_properties w10card (by decide) (by decide) (by decide)
      (by decide)⟩

/-! ### C9: Clone and shared mutable state (src/unnamed/part_008, `Clone`, lines 217-254)

A Go `VCard` is used through a pointer, and its slice fields, its two
`*time.Time` fields and its `customProps` map are mutable objects on the
heap; two cards share mutable state exactly when they reach a common such
object.  To make that explicit, the mutable objects become heap cells: a
`Heap` maps locations to objects (one per slice backing store, one per
`time.Time` value, one for the map, one per `VCard` struct), and a
`VCardData` stores locations where Go stores slices, pointers and the map.
`snapshot` is the contact value a client observes by dereferencing every
field (all the getters at once).  `cloneH` is `Clone`: it reads the source
card and allocates fresh objects -- `make` plus `copy` for each of the four
slices, a fresh `time.Time` value for each non-nil date pointer, a fresh map
filled by the range loop, and the new struct itself (Go allocates the struct
first and fills it afterwards; the model allocates it last with the final
field values, which is observationally the same). -/

structure VCardData where
  version : GoStr
  name : Name
  emailsR : Nat
  phonesR : Nat
  addressesR : Nat
  organization : Organization
  urlsR : Nat
  photo : GoStr
  note : GoStr
  birthdayR : Option Nat
  anniversaryR : Option Nat
  customR : Nat
deriving DecidableEq

inductive HObj where
  | emailsO : List Email → HObj
  | phonesO : List Phone → HObj
  | addressesO : List Address → HObj
  | urlsO : List URL → HObj
  | dateO : GoDate → HObj
  | mapO : List (GoStr × GoStr) → HObj
  | cardO : VCardData → HObj
deriving DecidableEq

structure Heap where
  next : Nat
  cells : List (Nat × HObj)
deriving DecidableEq

def readH (h : Heap) (i : Nat) : Option HObj :=
  (h.cells.find? fun c => c.1 == i).map Prod.snd

def writeH (h : Heap) (i : Nat) (o : HObj) : Heap :=
  ⟨h.next, (i, o) :: h.cells⟩

def allocH (h : Heap) (o : HObj) : Heap × Nat :=
  (⟨h.next + 1, (h.next, o) :: h.cells⟩, h.next)

def readEmails (h : Heap) (i : Nat) : List Email :=
  match readH h i with
  | some (HObj.emailsO l) => l
  | _ => []

def readPhones (h : Heap) (i : Nat) : List Phone :=
  match readH h i with
  | some (HObj.phonesO l) => l
  | _ => []

def readAddresses (h : Heap) (i : Nat) : List Address :=
  match readH h i with
  | some (HObj.addressesO l) => l
  | _ => []

def readURLs (h : Heap) (i : Nat) : List URL :=
  match readH h i with
  | some (HObj.urlsO l) => l
  | _ => []

def readMap (h : Heap) (i : Nat) : List (GoStr × GoStr) :=
  match readH h i with
  | some (HObj.mapO l) => l
  | _ => []

def readDate (h : Heap) (i : Nat) : Option GoDate :=
  match readH h i with
  | some (HObj.dateO d) => some d
  | _ => none

/-- Dereference a date cell; the default is never reached on well-formed
heaps (a non-nil `*time.Time` in Go always points at a time value). -/
def readDateD (h : Heap) (i : Nat) : GoDate :=
  match readH h i with
  | some (HObj.dateO d) => d
  | _ => ⟨0, 0, 0⟩

/-- The date a client observes through an optional date pointer. -/
def obsDate (h : Heap) (ro : Option Nat) : Option GoDate :=
  match ro with
  | some r => readDate h r
  | none => none

/-- The contact value observed through a card location: every getter of
part_008 at once, as a value-level `VCard`. -/
def snapshot (h : Heap) (p : Nat) : Option VCard :=
  match readH h p with
  | some (HObj.cardO d) =>
      some { version := d.version, name := d.name,
             emails := readEmails h d.emailsR,
             phones := readPhones h d.phonesR,
             addresses := readAddresses h d.addressesR,
             organization := d.organization,
             urls := readURLs h d.urlsR,
             photo := d.photo, note := d.note,
             birthday := obsDate h d.birthdayR,
             anniversary := obsDate h d.anniversaryR,
             customProps := readMap h d.customR }
  | _ => none

/-- `if v.birthday != nil { birthday := *v.birthday; clone.birthday = &birthday }`:
for a non-nil pointer, allocate a fresh date object holding the value read
from the source heap. -/
def allocDate (h : Heap) (src : Heap) (ro : Option Nat) : Heap × Option Nat :=
  match ro with
  | some r =>
      let t := allocH h (HObj.dateO (readDateD src r))
      (t.1, some t.2)
  | none => (h, none)

/- The allocation chain of `Clone`, one stage per fresh object, each stage
naming the heap after its allocation.  `h` is the pre-clone heap throughout;
all contents are read from it, exactly as `Clone` reads only from `v`. -/

def cloneEm (h : Heap) (d : VCardData) : Heap :=
  (allocH h (HObj.emailsO (readEmails h d.emailsR))).1

def clonePh (h : Heap) (d : VCardData) : Heap :=
  (allocH (cloneEm h d) (HObj.phonesO (readPhones h d.phonesR))).1

def cloneAd (h : Heap) (d : VCardData) : Heap :=
  (allocH (clonePh h d) (HObj.addressesO (readAddresses h d.addressesR))).1

def cloneUr (h : Heap) (d : VCardData) : Heap :=
  (allocH (cloneAd h d) (HObj.urlsO (readURLs h d.urlsR))).1

def cloneBd (h : Heap) (d : VCardData) : Heap × Option Nat :=
  allocDate (cloneUr h d) h d.birthdayR

def cloneAn (h : Heap) (d : VCardData) : Heap × Option Nat :=
  allocDate (cloneBd h d).1 h d.anniversaryR

def cloneMp (h : Heap) (d : VCardData) : Heap :=
  (allocH (cloneAn h d).1 (HObj.mapO (readMap h d.customR))).1

/-- The struct of the clone: inline fields copied from the source, reference
fields pointing at the freshly allocated objects (their ids follow the
allocation order above). -/
def cloneData (h : Heap) (d : VCardData) : VCardData :=
  ⟨d.version, d.name, h.next, h.next + 1, h.next + 2, d.organization,
   h.next + 3, d.photo, d.note, (cloneBd h d).2, (cloneAn h d).2,
   (cloneAn h d).1.next⟩

def cloneHeap (h : Heap) (d : VCardData) : Heap :=
  (allocH (cloneMp h d) (HObj.cardO (cloneData h d))).1

/-- `Clone` (part_008 lines 217-254): dereference the receiver and allocate
the deep copy; returns the new heap and the location of the new card. -/
def cloneH (h : Heap) (p : Nat) : Heap × Nat :=
  match readH h p with
  | some (HObj.cardO d) => (cloneHeap h d, (cloneMp h d).next)
  | _ => (h, p)

def optRefList (ro : Option Nat) : List Nat :=
  match ro with
  | some r => [r]
  | none => []

/-- The locations of the mutable objects referenced from a card struct. -/
def dataRefs (d : VCardData) : List Nat :=
  d.emailsR :: d.phonesR :: d.addressesR :: d.urlsR :: d.customR ::
    (optRefList d.birthdayR ++ optRefList d.anniversaryR)

/-- All mutable locations reachable from a card: the struct itself and the
objects it references. -/
def cardRefs (p : Nat) (d : VCardData) : List Nat := p :: dataRefs d

def dateRefOkB (h : Heap) (ro : Option Nat) : Bool :=
  match ro with
  | some r =>
      decide (r < h.next) &&
        (match readH h r with
         | some (HObj.dateO _) => true
         | _ => false)
  | none => true

def wfDataB (h : Heap) (d : VCardData) : Bool :=
  decide (d.emailsR < h.next) && decide (d.phonesR < h.next) &&
  decide (d.addressesR < h.next) && decide (d.urlsR < h.next) &&
  decide (d.customR < h.next) &&
  dateRefOkB h d.birthdayR && dateRefOkB h d.anniversaryR

def wfCellB (h : Heap) (o : HObj) : Bool :=
  match o with
  | HObj.cardO d => wfDataB h d
  | _ => true

/-- Well-formed heap: every allocated id is below the allocation counter and
every stored card references allocated objects (with non-nil date pointers
pointing at date values), as Go's memory safety guarantees. -/
def wfHeapB (h : Heap) : Bool :=
  h.cells.all fun c => decide (c.1 < h.next) && wfCellB h c.2

def c9data : VCardData :=
  ⟨Version30, plainName, 0, 1, 2, ⟨[], [], [], []⟩, 3, [], [],
   some 5, none, 4⟩

def c9heap : Heap :=
  ⟨7, [(0, HObj.emailsO []), (1, HObj.phonesO []), (2, HObj.addressesO []),
       (3, HObj.urlsO []), (4, HObj.mapO []), (5, HObj.dateO ⟨2020, 1, 2⟩),
       (6, HObj.cardO c9data)]⟩

theorem readH_cons_self (n : Nat) (cs : List (Nat × HObj)) (i : Nat) (o : HObj) :
    readH ⟨n, (i, o) :: cs⟩ i = some o := by
  unfold readH
  rw [List.find?_cons_of_pos]
  · rfl
  · simp

theorem readH_cons_ne (n m : Nat) (cs : List (Nat × HObj)) (i j : Nat) (o : HObj)
    (hne : j ≠ i) :
    readH ⟨n, (i, o) :: cs⟩ j = readH ⟨m, cs⟩ j := by
  unfold readH
  rw [List.find?_cons_of_neg]
  simp [Ne.symm hne]

theorem readH_write_self (h : Heap) (i : Nat) (o : HObj) :
    readH (writeH h i o) i = some o :=
  readH_cons_self h.next h.cells i o

theorem readH_write_ne (h : Heap) (i j : Nat) (o : HObj) (hne : j ≠ i) :
    readH (writeH h i o) j = readH h j :=
  readH_cons_ne h.next h.next h.cells i j o hne

theorem readH_alloc_self (h : Heap) (o : HObj) :
    readH (allocH h o).1 h.next = some o :=
  readH_cons_self (h.next + 1) h.cells h.next o

theorem readH_alloc_lt (h : Heap) (o : HObj) (j : Nat) (hj : j < h.next) :
    readH (allocH h o).1 j = readH h j :=
  readH_cons_ne (h.next + 1) h.next h.cells h.next j o (Nat.ne_of_lt hj)

/-- Heap extension: the allocation counter has not decreased and every old
location reads the same object. -/
def Ext (h1 h2 : Heap) : Prop :=
  h1.next ≤ h2.next ∧ ∀ j, j < h1.next → readH h2 j = readH h1 j

theorem ext_refl (h : Heap) : Ext h h := ⟨Nat.le_refl _, fun _ _ => rfl⟩

theorem ext_trans {h1 h2 h3 : Heap} (e1 : Ext h1 h2) (e2 : Ext h2 h3) :
    Ext h1 h3 :=
  ⟨Nat.le_trans e1.1 e2.1,
   fun j hj => (e2.2 j (Nat.lt_of_lt_of_le hj e1.1)).trans (e1.2 j hj)⟩

theorem ext_alloc (h : Heap) (o : HObj) : Ext h (allocH h o).1 :=
  ⟨Nat.le_succ h.next, fun j hj => readH_alloc_lt h o j hj⟩

theorem allocDate_ext (h src : Heap) (ro : Option Nat) :
    Ext h (allocDate h src ro).1 := by
  cases ro with
  | none => exact ext_refl h
  | some r => exact ext_alloc h (HObj.dateO (readDateD src r))

theorem allocDate_next_ge (h src : Heap) (ro : Option Nat) :
    h.next ≤ (allocDate h src ro).1.next :=
  (allocDate_ext h src ro).1

theorem allocDate_id (h src : Heap) (ro : Option Nat) (r : Nat)
    (hr : (allocDate h src ro).2 = some r) :
    h.next ≤ r ∧ r < (allocDate h src ro).1.next := by
  cases ro with
  | none => exact absurd hr (by simp [allocDate])
  | some r0 =>
      have h2 : (allocDate h src (some r0)).2 = some h.next := rfl
      rw [h2] at hr
      injection hr with hre
      have h1 : (allocDate h src (some r0)).1.next = h.next + 1 := rfl
      omega

theorem allocDate_obs (h src : Heap) (ro : Option Nat)
    (hok : dateRefOkB src ro = true) :
    obsDate (allocDate h src ro).1 (allocDate h src ro).2 = obsDate src ro := by
  cases ro with
  | none => rfl
  | some r =>
      simp only [dateRefOkB, Bool.and_eq_true] at hok
      obtain ⟨-, hok⟩ := hok
      obtain ⟨dt, hread⟩ : ∃ dt, readH src r = some (HObj.dateO dt) := by
        cases hcase : readH src r with
        | none => rw [hcase] at hok; simp at hok
        | some o =>
            cases o with
            | dateO dt => exact ⟨dt, rfl⟩
            | emailsO l => rw [hcase] at hok; simp at hok
            | phonesO l => rw [hcase] at hok; simp at hok
            | addressesO l => rw [hcase] at hok; simp at hok
            | urlsO l => rw [hcase] at hok; simp at hok
            | mapO l => rw [hcase] at hok; simp at hok
            | cardO dd => rw [hcase] at hok; simp at hok
      have hD : readDateD src r = dt := by simp [readDateD, hread]
      have hobs : obsDate src (some r) = some dt := by
        simp [obsDate, readDate, hread]
      have h2 : (allocDate h src (some r)).2 = some h.next := rfl
      rw [h2, hobs]
      have hsel : readH (allocDate h src (some r)).1 h.next =
          some (HObj.dateO (readDateD src r)) :=
        readH_alloc_self h (HObj.dateO (readDateD src r))
      rw [hD] at hsel
      show obsDate (allocDate h src (some r)).1 (some h.next) = some dt
      simp [obsDate, readDate, hsel]

theorem obsDate_ext {h1 h2 : Heap} (e : Ext h1 h2) (ro : Option Nat)
    (hro : ∀ r, ro = some r → r < h1.next) :
    obsDate h2 ro = obsDate h1 ro := by
  cases ro with
  | none => rfl
  | some r =>
      have hh := e.2 r (hro r rfl)
      simp [obsDate, readDate, hh]

theorem readH_mem (h : Heap) (i : Nat) (o : HObj) (hr : readH h i = some o) :
    (i, o) ∈ h.cells := by
  unfold readH at hr
  cases hf : h.cells.find? (fun c => c.1 == i) with
  | none => rw [hf] at hr; exact absurd hr (by simp)
  | some c =>
      rw [hf] at hr
      have hco : c.2 = o := by simpa using hr
      have hci : c.1 = i := by simpa using List.find?_some hf
      have hcm := List.mem_of_find?_eq_some hf
      have hc : c = (i, o) := Prod.ext_iff.mpr ⟨hci, hco⟩
      exact hc ▸ hcm

theorem wf_read_lt (h : Heap) (hwf : wfHeapB h = true) (i : Nat) (o : HObj)
    (hr : readH h i = some o) : i < h.next ∧ wfCellB h o = true := by
  have hm := readH_mem h i o hr
  have hax := List.all_eq_true.mp
    (show h.cells.all
        (fun c => decide (c.1 < h.next) && wfCellB h c.2) = true from hwf)
    (i, o) hm
  simp only [Bool.and_eq_true, decide_eq_true_eq] at hax
  exact hax

theorem wfDataB_bounds (h : Heap) (d : VCardData) (hd : wfDataB h d = true) :
    d.emailsR < h.next ∧ d.phonesR < h.next ∧ d.addressesR < h.next ∧
    d.urlsR < h.next ∧ d.customR < h.next ∧
    dateRefOkB h d.birthdayR = true ∧ dateRefOkB h d.anniversaryR = true := by
  unfold wfDataB at hd
  simp only [Bool.and_eq_true, decide_eq_true_eq] at hd
  tauto

theorem dateRefOk_lt (h : Heap) (ro : Option Nat) (hok : dateRefOkB h ro = true)
    (r : Nat) (hr : ro = some r) : r < h.next := by
  subst hr
  simp only [dateRefOkB, Bool.and_eq_true, decide_eq_true_eq] at hok
  exact hok.1

theorem mem_optRefList (ro : Option Nat) (r : Nat) (hr : r ∈ optRefList ro) :
    ro = some r := by
  cases ro with
  | none => simp [optRefList] at hr
  | some x =>
      simp [optRefList] at hr
      rw [hr]

theorem dataRefs_lt (h : Heap) (d : VCardData) (hd : wfDataB h d = true) :
    ∀ r ∈ dataRefs d, r < h.next := by
  obtain ⟨h1, h2, h3, h4, h5, hbok, haok⟩ := wfDataB_bounds h d hd
  intro r hr
  simp only [dataRefs, List.mem_cons, List.mem_append] at hr
  rcases hr with rfl | rfl | rfl | rfl | rfl | hr | hr
  · exact h1
  · exact h2
  · exact h3
  · exact h4
  · exact h5
  · exact dateRefOk_lt h d.birthdayR hbok r (mem_optRefList _ r hr)
  · exact dateRefOk_lt h d.anniversaryR haok r (mem_optRefList _ r hr)

theorem snapshot_card (h : Heap) (p : Nat) (d : VCardData)
    (hp : readH h p = some (HObj.cardO d)) :
    snapshot h p =
      some { version := d.version, name := d.name,
             emails := readEmails h d.emailsR,
             phones := readPhones h d.phonesR,
             addresses := readAddresses h d.addressesR,
             organization := d.organization,
             urls := readURLs h d.urlsR,
             photo := d.photo, note := d.note,
             birthday := obsDate h d.birthdayR,
             anniversary := obsDate h d.anniversaryR,
             customProps := readMap h d.customR } := by
  simp [snapshot, hp]

theorem snapshot_congr (h1 h2 : Heap) (p : Nat) (d : VCardData)
    (hp1 : readH h1 p = some (HObj.cardO d))
    (hp2 : readH h2 p = some (HObj.cardO d))
    (href : ∀ r, r ∈ dataRefs d → readH h1 r = readH h2 r) :
    snapshot h1 p = snapshot h2 p := by
  have he : readEmails h1 d.emailsR = readEmails h2 d.emailsR := by
    unfold readEmails; rw [href d.emailsR (by simp [dataRefs])]
  have hph : readPhones h1 d.phonesR = readPhones h2 d.phonesR := by
    unfold readPhones; rw [href d.phonesR (by simp [dataRefs])]
  have had : readAddresses h1 d.addressesR = readAddresses h2 d.addressesR := by
    unfold readAddresses; rw [href d.addressesR (by simp [dataRefs])]
  have hu : readURLs h1 d.urlsR = readURLs h2 d.urlsR := by
    unfold readURLs; rw [href d.urlsR (by simp [dataRefs])]
  have hm : readMap h1 d.customR = readMap h2 d.customR := by
    unfold readMap; rw [href d.customR (by simp [dataRefs])]
  have hb : obsDate h1 d.birthdayR = obsDate h2 d.birthdayR := by
    cases hbr : d.birthdayR with
    | none => rfl
    | some r =>
        have hh : readH h1 r = readH h2 r :=
          href r (by simp [dataRefs, hbr, optRefList])
        simp [obsDate, readDate, hh]
  have han : obsDate h1 d.anniversaryR = obsDate h2 d.anniversaryR := by
    cases har : d.anniversaryR with
    | none => rfl
    | some r =>
        have hh : readH h1 r = readH h2 r :=
          href r (by simp [dataRefs, har, optRefList])
        simp [obsDate, readDate, hh]
  simp only [snapshot, hp1, hp2, he, hph, had, hu, hm, hb, han]

theorem cloneHeap_card (h : Heap) (d : VCardData) :
    readH (cloneHeap h d) (cloneMp h d).next =
      some (HObj.cardO (cloneData h d)) :=
  readH_alloc_self (cloneMp h d) (HObj.cardO (cloneData h d))

theorem cloneHeap_ext (h : Heap) (d : VCardData) : Ext h (cloneHeap h d) := by
  have e1 : Ext h (cloneEm h d) :=
    ext_alloc h (HObj.emailsO (readEmails h d.emailsR))
  have e2 : Ext h (clonePh h d) :=
    ext_trans e1 (ext_alloc (cloneEm h d) (HObj.phonesO (readPhones h d.phonesR)))
  have e3 : Ext h (cloneAd h d) :=
    ext_trans e2
      (ext_alloc (clonePh h d) (HObj.addressesO (readAddresses h d.addressesR)))
  have e4 : Ext h (cloneUr h d) :=
    ext_trans e3 (ext_alloc (cloneAd h d) (HObj.urlsO (readURLs h d.urlsR)))
  have e5 : Ext h (cloneBd h d).1 :=
    ext_trans e4 (allocDate_ext (cloneUr h d) h d.birthdayR)
  have e6 : Ext h (cloneAn h d).1 :=
    ext_trans e5 (allocDate_ext (cloneBd h d).1 h d.anniversaryR)
  have e7 : Ext h (cloneMp h d) :=
    ext_trans e6 (ext_alloc (cloneAn h d).1 (HObj.mapO (readMap h d.customR)))
  exact ext_trans e7 (ext_alloc (cloneMp h d) (HObj.cardO (cloneData h d)))

theorem cloneHeap_next_ge (h : Heap) (d : VCardData) :
    h.next ≤ (cloneMp h d).next := by
  have hq1 : (cloneUr h d).next ≤ (cloneBd h d).1.next :=
    allocDate_next_ge (cloneUr h d) h d.birthdayR
  have hq2 : (cloneBd h d).1.next ≤ (cloneAn h d).1.next :=
    allocDate_next_ge (cloneBd h d).1 h d.anniversaryR
  have hq3 : (cloneUr h d).next = h.next + 4 := rfl
  have hq4 : (cloneMp h d).next = (cloneAn h d).1.next + 1 := rfl
  omega

theorem cloneRefs_ge (h : Heap) (d : VCardData) :
    ∀ r ∈ dataRefs (cloneData h d), h.next ≤ r := by
  have hq1 : (cloneUr h d).next ≤ (cloneBd h d).1.next :=
    allocDate_next_ge (cloneUr h d) h d.birthdayR
  have hq2 : (cloneBd h d).1.next ≤ (cloneAn h d).1.next :=
    allocDate_next_ge (cloneBd h d).1 h d.anniversaryR
  have hq3 : (cloneUr h d).next = h.next + 4 := rfl
  intro r hr
  simp only [dataRefs, List.mem_cons, List.mem_append] at hr
  rcases hr with rfl | rfl | rfl | rfl | rfl | hr | hr
  · exact Nat.le_refl h.next
  · exact Nat.le_add_right h.next 1
  · exact Nat.le_add_right h.next 2
  · exact Nat.le_add_right h.next 3
  · show h.next ≤ (cloneAn h d).1.next
    omega
  · have hsome : (cloneBd h d).2 = some r := mem_optRefList _ r hr
    have hid := allocDate_id (cloneUr h d) h d.birthdayR r hsome
    have hge : (cloneUr h d).next ≤ r := hid.1
    omega
  · have hsome : (cloneAn h d).2 = some r := mem_optRefList _ r hr
    have hid := allocDate_id (cloneBd h d).1 h d.anniversaryR r hsome
    have hge : (cloneBd h d).1.next ≤ r := hid.1
    omega

theorem cloneHeap_reads (h : Heap) (d : VCardData)
    (hbok : dateRefOkB h d.birthdayR = true)
    (haok : dateRefOkB h d.anniversaryR = true) :
    readEmails (cloneHeap h d) (cloneData h d).emailsR =
      readEmails h d.emailsR ∧
    readPhones (cloneHeap h d) (cloneData h d).phonesR =
      readPhones h d.phonesR ∧
    readAddresses (cloneHeap h d) (cloneData h d).addressesR =
      readAddresses h d.addressesR ∧
    readURLs (cloneHeap h d) (cloneData h d).urlsR = readURLs h d.urlsR ∧
    readMap (cloneHeap h d) (cloneData h d).customR = readMap h d.customR ∧
    obsDate (cloneHeap h d) (cloneData h d).birthdayR =
      obsDate h d.birthdayR ∧
    obsDate (cloneHeap h d) (cloneData h d).anniversaryR =
      obsDate h d.anniversaryR := by
  have eMp : Ext (cloneMp h d) (cloneHeap h d) :=
    ext_alloc (cloneMp h d) (HObj.cardO (cloneData h d))
  have eAn : Ext (cloneAn h d).1 (cloneHeap h d) :=
    ext_trans (ext_alloc (cloneAn h d).1 (HObj.mapO (readMap h d.customR))) eMp
  have eBd : Ext (cloneBd h d).1 (cloneHeap h d) :=
    ext_trans (allocDate_ext (cloneBd h d).1 h d.anniversaryR) eAn
  have eUr : Ext (cloneUr h d) (cloneHeap h d) :=
    ext_trans (allocDate_ext (cloneUr h d) h d.birthdayR) eBd
  have eAd : Ext (cloneAd h d) (cloneHeap h d) :=
    ext_trans (ext_alloc (cloneAd h d) (HObj.urlsO (readURLs h d.urlsR))) eUr
  have ePh : Ext (clonePh h d) (cloneHeap h d) :=
    ext_trans
      (ext_alloc (clonePh h d) (HObj.addressesO (readAddresses h d.addressesR)))
      eAd
  have eEm : Ext (cloneEm h d) (cloneHeap h d) :=
    ext_trans (ext_alloc (cloneEm h d) (HObj.phonesO (readPhones h d.phonesR)))
      ePh
  refine ⟨?_, ?_, ?_, ?_, ?_, ?_, ?_⟩
  · show readEmails (cloneHeap h d) h.next = readEmails h d.emailsR
    have hre : readH (cloneHeap h d) h.next =
        some (HObj.emailsO (readEmails h d.emailsR)) :=
      (eEm.2 h.next (Nat.lt_succ_self h.next)).trans
        (readH_alloc_self h (HObj.emailsO (readEmails h d.emailsR)))
    simp [readEmails, hre]
  · show readPhones (cloneHeap h d) (cloneEm h d).next = readPhones h d.phonesR
    have hre : readH (cloneHeap h d) (cloneEm h d).next =
        some (HObj.phonesO (readPhones h d.phonesR)) :=
      (ePh.2 (cloneEm h d).next (Nat.lt_succ_self (h.next + 1))).trans
        (readH_alloc_self (cloneEm h d) (HObj.phonesO (readPhones h d.phonesR)))
    simp [readPhones, hre]
  · show readAddresses (cloneHeap h d) (clonePh h d).next =
      readAddresses h d.addressesR
    have hre : readH (cloneHeap h d) (clonePh h d).next =
        some (HObj.addressesO (readAddresses h d.addressesR)) :=
      (eAd.2 (clonePh h d).next (Nat.lt_succ_self (h.next + 2))).trans
        (readH_alloc_self (clonePh h d)
          (HObj.addressesO (readAddresses h d.addressesR)))
    simp [readAddresses, hre]
  · show readURLs (cloneHeap h d) (cloneAd h d).next = readURLs h d.urlsR
    have hre : readH (cloneHeap h d) (cloneAd h d).next =
        some (HObj.urlsO (readURLs h d.urlsR)) :=
      (eUr.2 (cloneAd h d).next (Nat.lt_succ_self (h.next + 3))).trans
        (readH_alloc_self (cloneAd h d) (HObj.urlsO (readURLs h d.urlsR)))
    simp [readURLs, hre]
  · show readMap (cloneHeap h d) (cloneAn h d).1.next = readMap h d.customR
    have hre : readH (cloneHeap h d) (cloneAn h d).1.next =
        some (HObj.mapO (readMap h d.customR)) :=
      (eMp.2 (cloneAn h d).1.next (Nat.lt_succ_self (cloneAn h d).1.next)).trans
        (readH_alloc_self (cloneAn h d).1 (HObj.mapO (readMap h d.customR)))
    simp [readMap, hre]
  · show obsDate (cloneHeap h d) (cloneBd h d).2 = obsDate h d.birthdayR
    have hobs : obsDate (cloneBd h d).1 (cloneBd h d).2 = obsDate h d.birthdayR :=
      allocDate_obs (cloneUr h d) h d.birthdayR hbok
    have hlt : ∀ r, (cloneBd h d).2 = some r → r < (cloneBd h d).1.next :=
      fun r hr => (allocDate_id (cloneUr h d) h d.birthdayR r hr).2
    rw [obsDate_ext eBd (cloneBd h d).2 hlt, hobs]
  · show obsDate (cloneHeap h d) (cloneAn h d).2 = obsDate h d.anniversaryR
    have hobs : obsDate (cloneAn h d).1 (cloneAn h d).2 =
        obsDate h d.anniversaryR :=
      allocDate_obs (cloneBd h d).1 h d.anniversaryR haok
    have hlt : ∀ r, (cloneAn h d).2 = some r → r < (cloneAn h d).1.next :=
      fun r hr => (allocDate_id (cloneBd h d).1 h d.anniversaryR r hr).2
    rw [obsDate_ext eAn (cloneAn h d).2 hlt, hobs]

/-- C9: `Clone` (part_008, lines 217-254) produces a deep copy sharing no
mutable state with the source.  In the heap model: cloning a well-formed
heap's card yields a fresh card whose snapshot (the contact value seen
through all the getters) equals the original's; the original's snapshot is
untouched; the mutable locations reachable from the two cards (each struct,
its four slice backing stores, its date objects and its map) are pairwise
disjoint; and therefore overwriting any location reachable from the
original -- for example storing a changed name in its struct -- leaves the
clone's snapshot at the original contact value, and overwriting any location
reachable from the clone leaves the original's snapshot at that value. -/
theorem C9_clone_deep_copy (h : Heap) (p : Nat) (d : VCardData)
    (hwf : wfHeapB h = true) (hp : readH h p = some (HObj.cardO d)) :
    ∃ h' q d',
      cloneH h p = (h', q) ∧
      readH h' q = some (HObj.cardO d') ∧
      (∀ r ∈ cardRefs q d', ∀ r' ∈ cardRefs p d, r ≠ r') ∧
      snapshot h' q = snapshot h p ∧
      snapshot h' p = snapshot h p ∧
      (∀ i ∈ cardRefs p d, ∀ o, snapshot (writeH h' i o) q = snapshot h p) ∧
      (∀ j ∈ cardRefs q d', ∀ o, snapshot (writeH h' j o) p = snapshot h p) := by
  obtain ⟨hplt, hcell⟩ := wf_read_lt h hwf p (HObj.cardO d) hp
  have hdw : wfDataB h d = true := by simpa [wfCellB] using hcell
  obtain ⟨hb1, hb2, hb3, hb4, hb5, hbok, haok⟩ := wfDataB_bounds h d hdw
  have horef : ∀ r ∈ dataRefs d, r < h.next := dataRefs_lt h d hdw
  have hcref : ∀ r ∈ dataRefs (cloneData h d), h.next ≤ r := cloneRefs_ge h d
  have hqge : h.next ≤ (cloneMp h d).next := cloneHeap_next_ge h d
  have hext : Ext h (cloneHeap h d) := cloneHeap_ext h d
  have hcard : readH (cloneHeap h d) (cloneMp h d).next =
      some (HObj.cardO (cloneData h d)) := cloneHeap_card h d
  obtain ⟨hre, hrp, hra, hru, hrm, hrb, hran⟩ := cloneHeap_reads h d hbok haok
  have hcl : cloneH h p = (cloneHeap h d, (cloneMp h d).next) := by
    unfold cloneH
    rw [hp]
  have hpin : readH (cloneHeap h d) p = some (HObj.cardO d) :=
    (hext.2 p hplt).trans hp
  have hsnapq : snapshot (cloneHeap h d) (cloneMp h d).next = snapshot h p := by
    rw [snapshot_card (cloneHeap h d) (cloneMp h d).next (cloneData h d) hcard,
        snapshot_card h p d hp]
    rw [hre, hrp, hra, hru, hrm, hrb, hran]
    rfl
  have hsnapp : snapshot (cloneHeap h d) p = snapshot h p :=
    snapshot_congr (cloneHeap h d) h p d hpin hp
      (fun r hr => hext.2 r (horef r hr))
  refine ⟨cloneHeap h d, (cloneMp h d).next, cloneData h d, hcl, hcard,
    ?_, hsnapq, hsnapp, ?_, ?_⟩
  · intro r hr r' hr'
    simp only [cardRefs, List.mem_cons] at hr hr'
    have hge : h.next ≤ r := by
      rcases hr with rfl | hr
      · exact hqge
      · exact hcref r hr
    have hlt : r' < h.next := by
      rcases hr' with rfl | hr'
      · exact hplt
      · exact horef r' hr'
    omega
  · intro i hi o
    have hilt : i < h.next := by
      simp only [cardRefs, List.mem_cons] at hi
      rcases hi with rfl | hi
      · exact hplt
      · exact horef i hi
    have hp1 : readH (writeH (cloneHeap h d) i o) (cloneMp h d).next =
        some (HObj.cardO (cloneData h d)) := by
      rw [readH_write_ne (cloneHeap h d) i (cloneMp h d).next o (by omega)]
      exact hcard
    have hstep : snapshot (writeH (cloneHeap h d) i o) (cloneMp h d).next =
        snapshot (cloneHeap h d) (cloneMp h d).next :=
      snapshot_congr (writeH (cloneHeap h d) i o) (cloneHeap h d)
        (cloneMp h d).next (cloneData h d) hp1 hcard
        (fun r hr => readH_write_ne (cloneHeap h d) i r o
          (by have := hcref r hr; omega))
    rw [hstep, hsnapq]
  · intro j hj o
    have hjge : h.next ≤ j := by
      simp only [cardRefs, List.mem_cons] at hj
      rcases hj with rfl | hj
      · exact hqge
      · exact hcref j hj
    have hp1 : readH (writeH (cloneHeap h d) j o) p =
        some (HObj.cardO d) := by
      rw [readH_write_ne (cloneHeap h d) j p o (by omega)]
      exact hpin
    have hstep : snapshot (writeH (cloneHeap h d) j o) p =
        snapshot (cloneHeap h d) p :=
      snapshot_congr (writeH (cloneHeap h d) j o) (cloneHeap h d) p d hp1 hpin
        (fun r hr => readH_write_ne (cloneHeap h d) j r o
          (by have := horef r hr; omega))
    rw [hstep, hsnapp]

/-- Witness for C9: a concrete seven-object heap holding one card with a
birthday pointer, cloned at location 6. -/
theorem C9_clone_witness :
    wfHeapB c9heap = true ∧
    readH c9heap 6 = some (HObj.cardO c9data) ∧
    (∃ h' q d',
      cloneH c9heap 6 = (h', q) ∧
      readH h' q = some (HObj.cardO d') ∧
      (∀ r ∈ cardRefs q d', ∀ r' ∈ cardRefs 6 c9data, r ≠ r') ∧
      snapshot h' q = snapshot c9heap 6 ∧
      snapshot h' 6 = snapshot c9heap 6 ∧
      (∀ i ∈ cardRefs 6 c9data, ∀ o,
        snapshot (writeH h' i o) q = snapshot c9heap 6) ∧
      (∀ j ∈ cardRefs q d', ∀ o,
        snapshot (writeH h' j o) 6 = snapshot c9heap 6)) :=
  ⟨by decide, by decide, C9_clone_deep_copy c9heap 6 c9data (by decide) (by decide)⟩

end GoVcard
